import Mathlib

/-!
UFTP: a stop-and-wait file transfer over datagrams.

A shallow embedding of `uftp_client.c` and `uftp_server.c`.

The C functions talk to three external collaborators: the datagram socket
(`sendto`, `recvfrom`), the C file library (`fopen`, `fread`, `fwrite`,
`fclose`, `remove`) and the directory reader (`opendir`, `readdir`).  Their
answers are supplied by an `Env` of oracles, indexed by the number of calls made
so far; everything the program does to them is recorded in a `St`.

Conventions:

* Bytes are natural numbers (a real byte is one below 256; no definition depends
  on the bound).  Integers returned by the C functions are `Int`.
* A loop that the C code bounds by a counter takes the number of rounds that are
  left.  A `while (1)` loop takes a budget `fuel` of passes and ends in
  `Flow.running` when the budget is used up before the loop is left.
* `fread` on an open file returns the next `min(BUFSIZE, bytes left)` bytes; the
  bytes accepted by `fwrite` are in the file at once; `fclose` on an open stream
  has no effect that is observed here.  What `fclose` on a null stream does is
  left to the environment (`fclose_null`).
* `sendto_reliable` and `recvfrom_reliable` are the same text in both files and
  are embedded once.  The field `rsends` of the state is a record kept for the
  statements: one entry for each call of `sendto_reliable`.
* What the command functions print (`printf`, `perror`) is left out; what `main`
  prints itself in a pass of its command loop is returned by `Client.main_pass`.
-/

namespace Uftp

/-! ## Data model -/

/-- One byte of a datagram or of a file. -/
abbrev Byte := Nat

/-- A socket address (the content of a `struct sockaddr_in`). -/
abbrev Addr := Nat

/-- The capacity of a packet buffer: `BUFSIZE` is defined as 1024 in both files. -/
def BUFSIZE : Nat := 1024

/-- The retry bound: `SERVER_MAX_PACKET_RETRY` is defined as 5 in both files. -/
def SERVER_MAX_PACKET_RETRY : Nat := 5

/-- The string literal `"ACK"` without its terminator. -/
def ACK : List Byte := [65, 67, 75]

/-- The string literal `"FIN"` without its terminator. -/
def FIN : List Byte := [70, 73, 78]

/-- The string literal `"SUCCESS"` without its terminator. -/
def SUCCESS : List Byte := [83, 85, 67, 67, 69, 83, 83]

/-- The string literal `"FAIL"` without its terminator. -/
def FAIL : List Byte := [70, 65, 73, 76]

/-- The string literal `"get"` without its terminator. -/
def GET : List Byte := [103, 101, 116]

/-- The string literal `"put"` without its terminator. -/
def PUT : List Byte := [112, 117, 116]

/-- The string literal `"delete"` without its terminator. -/
def DELETE : List Byte := [100, 101, 108, 101, 116, 101]

/-- The string literal `"ls"` without its terminator. -/
def LS : List Byte := [108, 115]

/-- The string literal `"exit"` without its terminator. -/
def EXIT : List Byte := [101, 120, 105, 116]

/-- What one call of `recvfrom` can do. -/
inductive RecvResult where
  /-- Returns a negative value with `errno` `EAGAIN` or `EWOULDBLOCK`. -/
  | timeout : RecvResult
  /-- Returns a negative value with any other `errno`. -/
  | error : RecvResult
  /-- Delivers the datagram `d`, sent from address `src`. -/
  | data (src : Addr) (d : List Byte) : RecvResult
deriving DecidableEq, Repr

/-- One `struct dirent` as returned by `readdir`: the entry type and the name
(the bytes of `d_name` before its terminator). -/
structure Dirent where
  d_type : Nat
  d_name : List Byte
deriving DecidableEq, Repr

/-- The environment of one peer: the answers of the collaborators. -/
structure Env where
  /-- Whether the `i`-th call of `sendto` succeeds (returns a value `>= 0`). -/
  sendOk : Nat → Bool
  /-- The outcome of the `i`-th call of `recvfrom`. -/
  recvRes : Nat → RecvResult
  /-- How many bytes the `i`-th call of `fwrite` can store at most. -/
  wcap : Nat → Nat
  /-- Whether `fopen(name, "rb")` may open an existing file. -/
  canRead : List Byte → Bool
  /-- Whether `fopen(name, "wb")` succeeds. -/
  canWrite : List Byte → Bool
  /-- Whether `remove(name)` may remove an existing file. -/
  canRemove : List Byte → Bool
  /-- What `opendir(".")` followed by `readdir` enumerates; `none` when the
  directory cannot be opened. -/
  dir : Option (List Dirent)
  /-- Whether the C library faults on `fclose(NULL)` (see `fclose_null`). -/
  nullCloseFaults : Bool

/-- The state of one peer: its variables that outlive a call, its file store,
and the record of what it did. -/
structure St where
  /-- The content of `*serveraddr` (client) or `*clientaddr` (server). -/
  peer : Addr
  /-- Number of `sendto` calls made. -/
  nsend : Nat
  /-- Number of `recvfrom` calls made. -/
  nrecv : Nat
  /-- Number of `fwrite` calls made. -/
  nwrite : Nat
  /-- Every datagram handed to `sendto`, with its destination, oldest first. -/
  sent : List (Addr × List Byte)
  /-- Every call of `sendto_reliable`: its payload and its return value,
  oldest first. -/
  rsends : List (List Byte × Int)
  /-- The file store: the content of each existing file. -/
  fs : List Byte → Option (List Byte)

/-- How a command function ended. -/
inductive Flow where
  /-- The function returned to its caller. -/
  | returned : Flow
  /-- The process was killed by a fault (see `fclose_null`). -/
  | faulted : Flow
  /-- The loop was still running when the iteration budget of the model ran out. -/
  | running : Flow
deriving DecidableEq, Repr

/-! ## C strings and buffers -/

/-- C `strcmp` on two byte arrays; the end of a list reads as the terminator.
The result is zero exactly when the two strings agree up to their first zero
byte. -/
def strcmp : List Byte → List Byte → Int
  | [], [] => 0
  | [], b :: _ => 0 - (b : Int)
  | a :: _, [] => (a : Int) - 0
  | a :: as, b :: bs =>
    if a ≠ b then (a : Int) - (b : Int)
    else if a = 0 then 0
    else strcmp as bs

/-- The C string held in `d`: its bytes before the first zero byte. -/
def cstr (d : List Byte) : List Byte := d.takeWhile (fun b => decide (b ≠ 0))

/-- C `strlen`: the number of bytes before the first zero byte. -/
def strlen : List Byte → Nat
  | [] => 0
  | a :: as => if a = 0 then 0 else strlen as + 1

/-- The result of `memset(&buf, 0, BUFSIZE)` on `char buf[BUFSIZE]`. -/
def memset0 : List Byte := List.replicate BUFSIZE 0

/-- The buffer `buf` after a datagram `d` was copied to its start. -/
def store (buf d : List Byte) : List Byte := d ++ buf.drop d.length

/-! ## The collaborators -/

/-- The call `sendto(sockfd, message, message_size, 0, addr, len)`: the first
`message_size` bytes of `message` go to the address held in `peer`. Returns
whether the call succeeded. -/
def sendto (env : Env) (message : List Byte) (message_size : Nat) (s : St) : Bool × St :=
  (env.sendOk s.nsend,
   { s with nsend := s.nsend + 1, sent := s.sent ++ [(s.peer, message.take message_size)] })

/-- The call `recvfrom(sockfd, buf, size, 0, addr, len)`: a delivered datagram is
cut to `size` bytes and the address of its sender is written to `peer`. -/
def recvfrom (env : Env) (size : Nat) (s : St) : RecvResult × St :=
  match env.recvRes s.nrecv with
  | RecvResult.data a d => (RecvResult.data a (d.take size), { s with nrecv := s.nrecv + 1, peer := a })
  | r => (r, { s with nrecv := s.nrecv + 1 })

/-- The call `fopen(filename, "rb")`: the content of the file, or `none` for a
null stream. -/
def fopen_rb (env : Env) (filename : List Byte) (s : St) : Option (List Byte) :=
  if env.canRead filename then s.fs filename else none

/-- The call `fopen(filename, "wb")`: creates or truncates the file; `none` for a
null stream. -/
def fopen_wb (env : Env) (filename : List Byte) (s : St) : Option St :=
  if env.canWrite filename then
    some { s with fs := fun f => if f = filename then some [] else s.fs f }
  else none

/-- The call `fread(buf, 1, BUFSIZE, file)` on a stream with `rest` still unread:
the bytes read and the bytes left. -/
def fread (rest : List Byte) : List Byte × List Byte := (rest.take BUFSIZE, rest.drop BUFSIZE)

/-- The call `fwrite(buf, 1, n, file)` on the stream opened on `filename`: as
many of the first `n` bytes of `buf` as the store takes are appended; returns
the number written. -/
def fwrite (env : Env) (filename : List Byte) (buf : List Byte) (n : Nat) (s : St) : Nat × St :=
  let k := min n (env.wcap s.nwrite)
  (k, { s with nwrite := s.nwrite + 1,
               fs := fun f => if f = filename then
                   some ((s.fs filename).getD [] ++ (buf.take n).take k) else s.fs f })

/-- The call `remove(filename)`: whether it returned zero. -/
def remove (env : Env) (filename : List Byte) (s : St) : Bool × St :=
  if (s.fs filename).isSome && env.canRemove filename then
    (true, { s with fs := fun f => if f = filename then none else s.fs f })
  else (false, s)

/-- The call `fclose(file)` with `file == NULL`.  The C standard leaves it
undefined.  The GNU C library reads through the null pointer, which kills the
process, and nothing after the call runs; a library that checks the pointer
returns an error, which the code ignores.  The environment says which. -/
def fclose_null (env : Env) (s : St) : Flow × St :=
  if env.nullCloseFaults then (Flow.faulted, s) else (Flow.returned, s)

/-- The bytes of `input` up to and including its first newline (byte 10), or all
of them when there is none. -/
def through_newline : List Byte → List Byte
  | [] => []
  | b :: rest => if b = 10 then [b] else b :: through_newline rest

/-- The call `fgets(buf, BUFSIZE, stdin)` with `input` still unread on `stdin`: the
line stored in `buf` (at most `BUFSIZE - 1` bytes, ending with the first newline
if it comes that early; empty at the end of the input) and the input left. -/
def fgets (input : List Byte) : List Byte × List Byte :=
  ((through_newline (input.take (BUFSIZE - 1))),
   input.drop (through_newline (input.take (BUFSIZE - 1))).length)

/-- One call of `strtok` with the one-byte delimiter `delim` on the C string `str`
(for a null first argument: on the string saved by the call before).  The bytes
equal to `delim` at the start are skipped; the token runs up to the next `delim`
or to the end.  Returns the token (`none` for a null pointer) and the string
saved for the next call. -/
def strtok (str : List Byte) (delim : Byte) : Option (List Byte) × List Byte :=
  match str.dropWhile (fun b => decide (b = delim)) with
  | [] => (none, [])
  | b :: rest =>
    (some ((b :: rest).takeWhile (fun c => decide (c ≠ delim))),
     ((b :: rest).dropWhile (fun c => decide (c ≠ delim))).drop 1)

/-! ## Reliable transport (identical in `uftp_client.c` and `uftp_server.c`) -/

/-- How one pass through the body of the `while` loop of `sendto_reliable` ends. -/
inductive Round where
  /-- The statement `return 0`. -/
  | success : Round
  /-- A `break`. -/
  | abort : Round
  /-- The statement `n++` at the end of the body. -/
  | retry : Round
deriving DecidableEq, Repr

/-- The body of the `while` loop of `sendto_reliable`. -/
def sendto_reliable_round (env : Env) (message : List Byte) (message_size : Nat) (s : St) :
    Round × St :=
  match sendto env message message_size s with
  | (false, s1) => (Round.abort, s1)
  | (true, s1) =>
    match recvfrom env BUFSIZE s1 with
    | (RecvResult.timeout, s2) => (Round.retry, s2)
    | (RecvResult.error, s2) => (Round.abort, s2)
    | (RecvResult.data _ d, s2) =>
      if strcmp (store memset0 d) ACK = 0 then (Round.success, s2) else (Round.retry, s2)

/-- The `while (n < SERVER_MAX_PACKET_RETRY)` loop of `sendto_reliable`, with
`left = SERVER_MAX_PACKET_RETRY - n` rounds still allowed. -/
def sendto_reliable_loop (env : Env) (message : List Byte) (message_size : Nat) :
    Nat → St → Int × St
  | 0, s => (-1, s)
  | left + 1, s =>
    match sendto_reliable_round env message message_size s with
    | (Round.success, s1) => (0, s1)
    | (Round.abort, s1) => (-1, s1)
    | (Round.retry, s1) => sendto_reliable_loop env message message_size left s1

/-- The function `sendto_reliable(sockfd, message, message_size, addr, len)`.
The call is recorded in `rsends`. -/
def sendto_reliable (env : Env) (message : List Byte) (message_size : Nat) (s : St) : Int × St :=
  match sendto_reliable_loop env message message_size SERVER_MAX_PACKET_RETRY s with
  | (r, s1) => (r, { s1 with rsends := s1.rsends ++ [(message.take message_size, r)] })

/-- The `while (n < SERVER_MAX_PACKET_RETRY)` loop of `recvfrom_reliable`, with
`left = SERVER_MAX_PACKET_RETRY - n` rounds still allowed.  Returns the value
returned and the content of `message`. -/
def recvfrom_reliable_loop (env : Env) (message : List Byte) (message_size : Nat) :
    Nat → St → Int × List Byte × St
  | 0, s => (-1, message, s)
  | left + 1, s =>
    match recvfrom env message_size s with
    | (RecvResult.timeout, s1) => recvfrom_reliable_loop env message message_size left s1
    | (RecvResult.error, s1) => (-1, message, s1)
    | (RecvResult.data _ d, s1) =>
      match sendto env ACK 3 s1 with
      | (false, s2) => (-1, store message d, s2)
      | (true, s2) => ((d.length : Int), store message d, s2)

/-- The function `recvfrom_reliable(sockfd, message, message_size, addr, len)`. -/
def recvfrom_reliable (env : Env) (message : List Byte) (message_size : Nat) (s : St) :
    Int × List Byte × St :=
  recvfrom_reliable_loop env message message_size SERVER_MAX_PACKET_RETRY s

/-! ## Shared by the two sending loops -/

/-- The loop `while ((n = fread(buf, 1, BUFSIZE, file)) > 0)` with its body, as
written in the server's `get_file` and in the client's `put_file`: each chunk
read is passed to `sendto_reliable`, and a failed send leaves the loop.  `rest`
is the unread part of the file.  Each pass consumes at least one byte, so
`rest.length + 1` passes always suffice. -/
def send_file_loop (env : Env) : Nat → List Byte → St → Flow × St
  | 0, _, s => (Flow.running, s)
  | fuel + 1, rest, s =>
    match fread rest with
    | (buf, rest1) =>
      if 0 < buf.length then
        match sendto_reliable env buf buf.length s with
        | (r, s1) => if r < 0 then (Flow.returned, s1) else send_file_loop env fuel rest1 s1
      else (Flow.returned, s)

/-! ## `uftp_server.c` -/

namespace Server

/-- The function `send_success_state(sockfd, clientaddr, clientlen, err)`. -/
def send_success_state (env : Env) (err : Int) (s : St) : St :=
  if err = 0 then (sendto_reliable env SUCCESS 7 s).2
  else (sendto_reliable env FAIL 4 s).2

/-- The server's `get_file(sockfd, clientaddr, clientlen, filename)`.  When `fopen`
fails the code only warns; the `fclose(file)` after the `if`/`else` is then
reached with the null stream, before the `FIN` is sent. -/
def get_file (env : Env) (filename : List Byte) (s : St) : Flow × St :=
  match fopen_rb env filename s with
  | none =>
    -- `warning("ERROR opening file")`; the `else` branch is skipped; `fclose(file)`
    match fclose_null env s with
    | (Flow.returned, s1) => (Flow.returned, (sendto_reliable env FIN 3 s1).2)
    | (fl, s1) => (fl, s1)
  | some content =>
    match send_file_loop env (content.length + 1) content s with
    | (Flow.returned, s1) =>
      -- `fclose(file)` on the open stream, then the completion packet
      (Flow.returned, (sendto_reliable env FIN 3 s1).2)
    | (fl, s1) => (fl, s1)

/-- The `while (1)` loop of the server's `put_file`; `err` is the local flag.
Returns how the loop ended and the flag. -/
def put_file_loop (env : Env) (filename : List Byte) : Nat → Int → St → Flow × Int × St
  | 0, err, s => (Flow.running, err, s)
  | fuel + 1, err, s =>
    match recvfrom_reliable env memset0 BUFSIZE s with
    | (n, buf, s1) =>
      if n < 0 then (Flow.returned, 1, s1)
      else if strcmp buf FIN = 0 then (Flow.returned, err, s1)
      else
        match fwrite env filename buf n.toNat s1 with
        | (written, s2) =>
          if (written : Int) < 0 then (Flow.returned, err, s2)
          else put_file_loop env filename fuel err s2

/-- The server's `put_file(sockfd, clientaddr, clientlen, filename)`, run for at
most `fuel` passes of its receive loop.  When `fopen` fails the first statement
after the warning is `fclose(file)` on the null stream. -/
def put_file (env : Env) (fuel : Nat) (filename : List Byte) (s : St) : Flow × St :=
  match fopen_wb env filename s with
  | none =>
    -- `warning("ERROR opening file"); fclose(file); err = 1;`, then the
    -- `fclose(file)` after the `if`/`else`, then the status
    match fclose_null env s with
    | (Flow.returned, s1) =>
      match fclose_null env s1 with
      | (Flow.returned, s2) => (Flow.returned, send_success_state env 1 s2)
      | (fl, s2) => (fl, s2)
    | (fl, s1) => (fl, s1)
  | some s0 =>
    match put_file_loop env filename fuel 0 s0 with
    | (Flow.returned, err, s1) =>
      -- `fclose(file)` on the open stream, then the status
      (Flow.returned, send_success_state env err s1)
    | (fl, _, s1) => (fl, s1)

/-- The server's `delete_file(sockfd, clientaddr, clientlen, filename)`. -/
def delete_file (env : Env) (filename : List Byte) (s : St) : Flow × St :=
  match remove env filename s with
  | (true, s1) => (Flow.returned, send_success_state env 0 s1)
  | (false, s1) => (Flow.returned, send_success_state env 1 s1)

/-- The loop `while ((dir = readdir(directory)) != NULL)` of the server's
`ls_files`, over the entries still to be read. -/
def ls_files_loop (env : Env) : List Dirent → St → St
  | [], s => s
  | dir :: more, s =>
    if dir.d_type ≠ 0 then
      match sendto_reliable env dir.d_name (strlen dir.d_name) s with
      | (r, s1) => if r < 0 then s1 else ls_files_loop env more s1
    else ls_files_loop env more s

/-- The server's `ls_files(sockfd, clientaddr, clientlen)`. -/
def ls_files (env : Env) (s : St) : Flow × St :=
  match env.dir with
  | none => (Flow.returned, (sendto_reliable env FIN 3 s).2)
  | some entries => (Flow.returned, (sendto_reliable env FIN 3 (ls_files_loop env entries s)).2)

end Server

/-! ## `uftp_client.c` -/

namespace Client

/-- The `while (1)` loop of the client's `get_file`. -/
def get_file_loop (env : Env) (filename : List Byte) : Nat → St → Flow × St
  | 0, s => (Flow.running, s)
  | fuel + 1, s =>
    match recvfrom_reliable env memset0 BUFSIZE s with
    | (n, buf, s1) =>
      if n < 0 then (Flow.returned, s1)
      else if strcmp buf FIN = 0 then (Flow.returned, s1)
      else
        match fwrite env filename buf n.toNat s1 with
        | (written, s2) =>
          if (written : Int) < 0 then (Flow.returned, s2)
          else get_file_loop env filename fuel s2

/-- The client's `get_file(sockfd, serveraddr, serverlen, filename)`, run for at
most `fuel` passes of its receive loop. -/
def get_file (env : Env) (fuel : Nat) (filename : List Byte) (s : St) : Flow × St :=
  match fopen_wb env filename s with
  | none =>
    -- `warning("ERROR opening file"); fclose(file); return;`
    fclose_null env s
  | some s0 => get_file_loop env filename fuel s0

/-- The client's `put_file(sockfd, serveraddr, serverlen, filename)`. -/
def put_file (env : Env) (filename : List Byte) (s : St) : Flow × St :=
  match fopen_rb env filename s with
  | none =>
    -- `warning("ERROR opening file"); fclose(file); return;`
    fclose_null env s
  | some content =>
    match send_file_loop env (content.length + 1) content s with
    | (Flow.returned, s1) =>
      match sendto_reliable env FIN 3 s1 with
      | (_, s2) =>
        -- `fclose(file)`, then one receive for the status, which is only printed
        match recvfrom_reliable env memset0 BUFSIZE s2 with
        | (_, _, s3) => (Flow.returned, s3)
    | (fl, s1) => (fl, s1)

/-- The client's `delete_file(sockfd, serveraddr, serverlen, filename)`: one
receive for the status, which is only printed. -/
def delete_file (env : Env) (s : St) : Flow × St :=
  match recvfrom_reliable env memset0 BUFSIZE s with
  | (_, _, s1) => (Flow.returned, s1)

/-- The client's `ls_files(sockfd, serveraddr, serverlen)`, run for at most
`fuel` passes of its `while (1)` loop. -/
def ls_files (env : Env) : Nat → St → Flow × St
  | 0, s => (Flow.running, s)
  | fuel + 1, s =>
    match recvfrom_reliable env memset0 BUFSIZE s with
    | (n, buf, s1) =>
      if n < 0 then
        -- `warning("ERROR receiving file name"); continue;`
        ls_files env fuel s1
      else if strcmp buf FIN = 0 then (Flow.returned, s1)
      else ls_files env fuel s1

/-- What `main` prints itself in one pass of its command loop. -/
inductive Printed where
  /-- The prompt, `enter a command:` and a newline. -/
  | enter_a_command : Printed
  /-- The rejection, `INVALID COMMAND` and a newline. -/
  | invalid_command : Printed
  /-- The empty line printed at the end of a pass. -/
  | blank_line : Printed
deriving DecidableEq, Repr

/-- How one pass of the command loop of `main` ends. -/
inductive Pass where
  /-- The end of the loop body is reached; the loop goes on. -/
  | next : Pass
  /-- The `break` of the `exit` command. -/
  | left : Pass
  /-- The call `error("ERROR in sendto")`, which ends the process with `exit(0)`. -/
  | exited : Pass
  /-- The process was killed by a fault. -/
  | faulted : Pass
  /-- A command was still running when the budget of the model ran out. -/
  | running : Pass
deriving DecidableEq, Repr

/-- The two lines `command = strtok(strtok(buf, "\n"), " ")` and
`filename = strtok(NULL, "\n")` of `main`: the two pointers, `none` for null. -/
def parse_command (buf : List Byte) : Option (List Byte) × Option (List Byte) :=
  match strtok (cstr buf) 10 with
  | (some line, _) =>
    match strtok line 32 with
    | (command, saved) => (command, (strtok saved 10).1)
  | (none, saved) =>
    -- the outer call gets a null first argument and resumes the saved string
    match strtok saved 32 with
    | (command, saved1) => (command, (strtok saved1 10).1)

/-- How a pass goes on after a command function came back. -/
def after_command (r : Flow × St) : Pass × List Printed × St :=
  match r with
  | (Flow.returned, s) => (Pass.next, [Printed.blank_line], s)
  | (Flow.faulted, s) => (Pass.faulted, [], s)
  | (Flow.running, s) => (Pass.running, [], s)

/-- The `if`/`else if` chain of `main` on the two pointers.  A null `command` is
read by `strcmp`, which kills the process; a null `filename` makes `fopen` fail,
so that `get_file` and `put_file` take their branch for a file not opened. -/
def dispatch (env : Env) (fuel : Nat) (command filename : Option (List Byte)) (s : St) :
    Pass × List Printed × St :=
  match command with
  | none => (Pass.faulted, [], s)
  | some c =>
    if strcmp c GET = 0 then
      match filename with
      | some f => after_command (get_file env fuel f s)
      | none => after_command (fclose_null env s)
    else if strcmp c PUT = 0 then
      match filename with
      | some f => after_command (put_file env f s)
      | none => after_command (fclose_null env s)
    else if strcmp c DELETE = 0 then after_command (delete_file env s)
    else if strcmp c LS = 0 then after_command (ls_files env fuel s)
    else if strcmp c EXIT = 0 then (Pass.left, [], s)
    else (Pass.next, [Printed.invalid_command, Printed.blank_line], s)

/-- One pass of the `while (1)` command loop of the client's `main`, with `input`
still unread on `stdin` and at most `fuel` passes for the loops of the command:
how the pass ends, what `main` printed, the input left, and the state. -/
def main_pass (env : Env) (fuel : Nat) (input : List Byte) (s : St) :
    Pass × List Printed × List Byte × St :=
  match fgets input with
  | (line, input1) =>
    match sendto_reliable env (store memset0 line) (strlen (store memset0 line)) s with
    | (n, s1) =>
      if n < 0 then
        -- `close(sockfd); error("ERROR in sendto");`
        (Pass.exited, [Printed.enter_a_command], input1, s1)
      else
        match parse_command (store memset0 line) with
        | (command, filename) =>
          match dispatch env fuel command filename s1 with
          | (p, out, s2) => (p, Printed.enter_a_command :: out, input1, s2)

end Client

/-! ## Vocabulary of the statements and concrete scenarios -/

/-- An environment in which every `sendto` succeeds, nothing ever arrives, the file
store always obliges, and the C library is the GNU one. -/
def quiet : Env where
  sendOk := fun _ => true
  recvRes := fun _ => RecvResult.timeout
  wcap := fun _ => BUFSIZE
  canRead := fun _ => true
  canWrite := fun _ => true
  canRemove := fun _ => true
  dir := none
  nullCloseFaults := true

/-- The environment `quiet` except that the `i`-th `recvfrom` has the `i`-th
outcome of `replies`; once they are used up every receive times out. -/
def scripted (replies : List RecvResult) : Env :=
  { quiet with recvRes := fun i => (replies.get? i).getD RecvResult.timeout }

/-- A peer that has done nothing yet, has no files, and talks to `peer`. -/
def fresh (peer : Addr) : St where
  peer := peer
  nsend := 0
  nrecv := 0
  nwrite := 0
  sent := []
  rsends := []
  fs := fun _ => none

/-- A peer that has done nothing yet and whose only file, `filename`, has the given
content. -/
def having (peer : Addr) (filename content : List Byte) : St :=
  { fresh peer with fs := (fun f => if f = filename then some content else none) }

/-- The five bytes `hello`. -/
def hello : List Byte := [104, 101, 108, 108, 111]

/-- The payloads handed to `sendto`, without their destinations. -/
def payloads (s : St) : List (List Byte) := s.sent.map Prod.snd

/-- The calls of `sendto_reliable` made on the way from state `s` to state `t`. -/
def rcalls (s t : St) : List (List Byte × Int) := t.rsends.drop s.rsends.length

/-- The environment `quiet` except that every `recvfrom` delivers the three bytes
`ACK` from address `a`: every datagram sent is acknowledged at once. -/
def acking (a : Addr) : Env :=
  { quiet with recvRes := (fun _ => RecvResult.data a ACK) }

/-- The name `a.txt`. -/
def a_txt : List Byte := [97, 46, 116, 120, 116]

/-- The name `b.bin`. -/
def b_bin : List Byte := [98, 46, 98, 105, 110]

/-- What `readdir` enumerates in a directory holding only the regular files
`a.txt` and `b.bin`: the entries `.` and `..` of type `DT_DIR` (4) and the two
files of type `DT_REG` (8). -/
def two_files : List Dirent :=
  [⟨4, [46]⟩, ⟨4, [46, 46]⟩, ⟨8, a_txt⟩, ⟨8, b_bin⟩]

/-- A server in that directory, on a channel that acknowledges every datagram. -/
def listing : Env :=
  { acking 1 with dir := some two_files }

/-- The successive reads of at most `BUFSIZE` bytes that cover `rest`, none of them
empty; `fuel` bounds their number. -/
def chunksFuel : Nat → List Byte → List (List Byte)
  | 0, _ => []
  | fuel + 1, rest =>
    if 0 < (rest.take BUFSIZE).length then rest.take BUFSIZE :: chunksFuel fuel (rest.drop BUFSIZE)
    else []

/-- The chunks of a file: its successive pieces of `BUFSIZE` bytes, the last one
possibly shorter. -/
def chunks (content : List Byte) : List (List Byte) := chunksFuel (content.length + 1) content

/-- The payload sequence `ps` is a chunked transfer of `content`: `ceil(S / C)`
chunks for `S` bytes and capacity `C = BUFSIZE`, none empty, none longer than
`C`, which put end to end are `content`, and then one `FIN`. -/
def ChunkedTransfer (content : List Byte) (ps : List (List Byte)) : Prop :=
  ∃ cs : List (List Byte), ps = cs ++ [FIN] ∧
    cs.length = (content.length + BUFSIZE - 1) / BUFSIZE ∧
    (∀ c ∈ cs, 0 < c.length ∧ c.length ≤ BUFSIZE) ∧
    cs.flatten = content

/-- A file of 1030 bytes: one full chunk and six bytes more. -/
def long_file : List Byte := List.replicate 1030 7

/-- The server state after `delete a.txt` was served, on an acknowledging channel,
by a server that had the file. -/
def after_delete : St := (Server.delete_file (acking 1) a_txt (having 1 a_txt hello)).2

/-- An upload onto a full disk: the chunk `hello` and then `FIN` arrive, the status
is acknowledged, and every `fwrite` stores nothing. -/
def disk_full : Env :=
  { scripted [RecvResult.data 1 hello, RecvResult.data 1 FIN, RecvResult.data 1 ACK] with
    wcap := (fun _ => 0) }

/-- An upload into a directory that refuses the new file. -/
def read_only : Env :=
  { scripted [RecvResult.data 1 hello, RecvResult.data 1 FIN, RecvResult.data 1 ACK] with
    canWrite := (fun _ => false) }

/-- What a peer hears on a lossless, idle link from the peer at `src`: its `i`-th
`recvfrom` delivers the `i`-th datagram of `arrivals`, and times out once there
is none left; every `sendto` succeeds and the file store has no errors. -/
def lossless (src : Addr) (arrivals : List (List Byte)) : Env :=
  scripted (arrivals.map (RecvResult.data src))

/-- The address of the client. -/
def client_addr : Addr := 1

/-- The address of the server. -/
def server_addr : Addr := 2

/-- The acknowledgements the receiver of the file `F` transmits: one for each chunk
and one for the `FIN`. -/
def acks (F : List Byte) : List (List Byte) := List.replicate ((chunks F).length + 1) ACK

/-- The client's side of an upload of the file `filename` with content `F`, when the
datagrams arriving from the server are `replies`. -/
def client_upload (filename F : List Byte) (replies : List (List Byte)) : Flow × St :=
  Client.put_file (lossless server_addr replies) filename (having server_addr filename F)

/-- The server's side of the same upload: what arrives is what the client
transmitted. -/
def server_upload (filename F : List Byte) (replies : List (List Byte)) : Flow × St :=
  Server.put_file (lossless client_addr (payloads (client_upload filename F replies).2))
    ((chunks F).length + 1) filename (fresh client_addr)

/-- The server's side of a download of `filename` from the file store `stored`, when
the datagrams arriving from the client are `replies`. -/
def server_download (filename : List Byte) (stored : List Byte → Option (List Byte))
    (replies : List (List Byte)) : Flow × St :=
  Server.get_file (lossless client_addr replies) filename { fresh client_addr with fs := stored }

/-- The client's side of the same download, run for at most `fuel` passes of its
receive loop: what arrives is what the server transmitted. -/
def client_download (filename : List Byte) (stored : List Byte → Option (List Byte))
    (fuel : Nat) (replies : List (List Byte)) : Flow × St :=
  Client.get_file (lossless server_addr (payloads (server_download filename stored replies).2))
    fuel filename (fresh server_addr)

/-- The verb of an input line as the specification reads it: the text before the
first space, the newline that ends the line left off. -/
def verb (line : List Byte) : List Byte :=
  (line.takeWhile (fun b => decide (b ≠ 10))).takeWhile (fun b => decide (b ≠ 32))

/-- The line `hello` with its newline. -/
def hello_line : List Byte := hello ++ [10]

/-- The call of `sendto_reliable` at the head of a pass of the client's command
loop: it sends the line just read, as a C string, before the line is parsed. -/
def send_line (env : Env) (input : List Byte) (s : St) : Int × St :=
  sendto_reliable env (store memset0 (fgets input).1) (strlen (store memset0 (fgets input).1)) s

/-! ## Lemmas on C strings -/

/-- Against a token without zero bytes, `strcmp` of a zero-padded buffer is zero
exactly when the C string in the buffer is the token. -/
theorem strcmp_pad_eq_zero_iff (tok : List Byte) (htok : ∀ b ∈ tok, b ≠ 0) :
    ∀ (d : List Byte) (k : Nat), strcmp (d ++ List.replicate k 0) tok = 0 ↔ cstr d = tok := by
  induction tok with
  | nil =>
    intro d k
    cases d with
    | nil => cases k <;> simp [strcmp, cstr, List.replicate]
    | cons a t =>
      by_cases ha : a = 0
      · simp [strcmp, cstr, ha]
      · simp [strcmp, cstr, ha]
  | cons b bs ih =>
    intro d k
    have hb : b ≠ 0 := htok b (by simp)
    have hbs : ∀ x ∈ bs, x ≠ 0 := fun x hx => htok x (by simp [hx])
    cases d with
    | nil =>
      cases k with
      | zero => simp [strcmp, cstr, hb]
      | succ k => simp [strcmp, cstr, List.replicate, hb, Ne.symm hb]
    | cons a t =>
      by_cases hab : a = b
      · subst hab
        have := ih hbs t k
        simp [strcmp, cstr, hb] at this ⊢
        exact this
      · have hsub : (a : Int) - (b : Int) ≠ 0 := by
          intro h
          exact hab (by exact_mod_cast sub_eq_zero.mp h)
        have hne : cstr (a :: t) ≠ b :: bs := by
          unfold cstr
          rw [List.takeWhile_cons]
          split
          · intro h
            exact hab (List.cons.inj h).1
          · simp
        simp [strcmp, hab, hsub, hne]

/-- A zeroed buffer that received `d` is `d` followed by zeros. -/
theorem store_memset0 (d : List Byte) : store memset0 d = d ++ List.replicate (BUFSIZE - d.length) 0 := by
  simp [store, memset0]

/-- The comparison the receive loops make: zero exactly when the C string in the
datagram is the token. -/
theorem strcmp_store_eq_zero_iff (tok : List Byte) (htok : ∀ b ∈ tok, b ≠ 0) (d : List Byte) :
    strcmp (store memset0 d) tok = 0 ↔ cstr d = tok := by
  rw [store_memset0]; exact strcmp_pad_eq_zero_iff tok htok d _

/-- The first `strlen` bytes of an array are the C string it holds. -/
theorem take_strlen (l : List Byte) : l.take (strlen l) = cstr l := by
  induction l with
  | nil => rfl
  | cons a t ih =>
    by_cases ha : a = 0
    · simp [strlen, cstr, ha]
    · simp only [strlen, ha, if_false, List.take_succ_cons, ih]
      simp [cstr, ha]

/-! ## Lemmas on the reliable transport -/

/-- What the loop of `sendto_reliable` can and cannot change: it returns `0` or
`-1`, leaves the call record and the file store alone, and hands to `sendto` at
most `left` datagrams, all with the payload of the call. -/
theorem sendto_reliable_loop_frame (env : Env) (message : List Byte) (message_size : Nat) :
    ∀ (left : Nat) (s : St),
      ((sendto_reliable_loop env message message_size left s).1 = 0 ∨
        (sendto_reliable_loop env message message_size left s).1 = -1) ∧
      (sendto_reliable_loop env message message_size left s).2.rsends = s.rsends ∧
      (sendto_reliable_loop env message message_size left s).2.fs = s.fs ∧
      (sendto_reliable_loop env message message_size left s).2.nwrite = s.nwrite ∧
      ∃ n, n ≤ left ∧ payloads (sendto_reliable_loop env message message_size left s).2
        = payloads s ++ List.replicate n (message.take message_size) := by
  intro left
  induction left with
  | zero => intro s; exact ⟨Or.inr rfl, rfl, rfl, rfl, 0, le_refl _, by simp [sendto_reliable_loop]⟩
  | succ left ih =>
    intro s
    have hstep : payloads (sendto env message message_size s).2
        = payloads s ++ [message.take message_size] := by simp [payloads, sendto]
    unfold sendto_reliable_loop sendto_reliable_round
    cases hs : env.sendOk s.nsend with
    | false =>
      refine ⟨Or.inr ?_, ?_, ?_, ?_, 1, by omega, ?_⟩ <;> simp [sendto, hs, payloads]
    | true =>
      cases hr : env.recvRes s.nrecv with
      | timeout =>
        simp only [sendto, recvfrom, hs, hr]
        obtain ⟨h1, h2, h3, h4, n, hn, h5⟩ := ih
          { s with nsend := s.nsend + 1, sent := s.sent ++ [(s.peer, message.take message_size)],
                   nrecv := s.nrecv + 1 }
        refine ⟨h1, h2, h3, h4, n + 1, by omega, ?_⟩
        rw [h5]; simp [payloads, List.replicate_succ]
      | error =>
        refine ⟨Or.inr ?_, ?_, ?_, ?_, 1, by omega, ?_⟩ <;> simp [sendto, recvfrom, hs, hr, payloads]
      | data a d =>
        by_cases hc : strcmp (store memset0 (d.take BUFSIZE)) ACK = 0
        · refine ⟨Or.inl ?_, ?_, ?_, ?_, 1, by omega, ?_⟩ <;>
            simp [sendto, recvfrom, hs, hr, hc, payloads]
        · simp only [sendto, recvfrom, hs, hr, hc, if_false]
          obtain ⟨h1, h2, h3, h4, n, hn, h5⟩ := ih
            { s with nsend := s.nsend + 1, sent := s.sent ++ [(s.peer, message.take message_size)],
                     nrecv := s.nrecv + 1, peer := a }
          refine ⟨h1, h2, h3, h4, n + 1, by omega, ?_⟩
          rw [h5]; simp [payloads, List.replicate_succ]

/-- What a call of `sendto_reliable` can and cannot change: it returns `0` or `-1`,
records itself once, leaves the file store alone, and hands to `sendto` at most
five datagrams, all with the payload of the call. -/
theorem sendto_reliable_frame (env : Env) (message : List Byte) (message_size : Nat) (s : St) :
    ((sendto_reliable env message message_size s).1 = 0 ∨
      (sendto_reliable env message message_size s).1 = -1) ∧
    (sendto_reliable env message message_size s).2.rsends
      = s.rsends ++ [(message.take message_size, (sendto_reliable env message message_size s).1)] ∧
    (sendto_reliable env message message_size s).2.fs = s.fs ∧
    (sendto_reliable env message message_size s).2.nwrite = s.nwrite ∧
    ∃ n, n ≤ SERVER_MAX_PACKET_RETRY ∧ payloads (sendto_reliable env message message_size s).2
      = payloads s ++ List.replicate n (message.take message_size) := by
  obtain ⟨h1, h2, h3, h4, n, hn, h5⟩ :=
    sendto_reliable_loop_frame env message message_size SERVER_MAX_PACKET_RETRY s
  refine ⟨h1, ?_, h3, h4, n, hn, h5⟩
  simp [sendto_reliable, h2]

/-- A `sendto_reliable` whose first datagram goes out and is answered by `ACK` returns
`0` after that one round. -/
theorem sendto_reliable_acked (env : Env) (message : List Byte) (message_size : Nat) (s : St)
    (a : Addr) (hs : env.sendOk s.nsend = true)
    (hr : env.recvRes s.nrecv = RecvResult.data a ACK) :
    sendto_reliable env message message_size s
      = (0, { s with nsend := s.nsend + 1, nrecv := s.nrecv + 1, peer := a,
                     sent := s.sent ++ [(s.peer, message.take message_size)],
                     rsends := s.rsends ++ [(message.take message_size, 0)] }) := by
  have h1 : List.take BUFSIZE ACK = ACK := by decide
  have h2 : strcmp (store memset0 ACK) ACK = 0 := by decide
  simp [sendto_reliable, sendto_reliable_loop, sendto_reliable_round, sendto, recvfrom, hs, hr,
    h1, h2, SERVER_MAX_PACKET_RETRY]

/-- Timed-out receives use up rounds of `recvfrom_reliable` and nothing else. -/
theorem recvfrom_reliable_loop_timeouts (env : Env) (message : List Byte) (message_size : Nat) :
    ∀ (k left : Nat) (s : St),
      (∀ i, i < k → env.recvRes (s.nrecv + i) = RecvResult.timeout) →
      recvfrom_reliable_loop env message message_size (left + k) s
        = recvfrom_reliable_loop env message message_size left { s with nrecv := s.nrecv + k } := by
  intro k
  induction k with
  | zero => intro left s _; rfl
  | succ k ih =>
    intro left s h
    have h0 : env.recvRes s.nrecv = RecvResult.timeout := by simpa using h 0 (by omega)
    have hstep : recvfrom_reliable_loop env message message_size (left + k + 1) s
        = recvfrom_reliable_loop env message message_size (left + k) { s with nrecv := s.nrecv + 1 } := by
      simp [recvfrom_reliable_loop, recvfrom, h0]
    have hrest : ∀ i, i < k → env.recvRes (({ s with nrecv := s.nrecv + 1 } : St).nrecv + i)
        = RecvResult.timeout := by
      intro i hi
      have := h (i + 1) (by omega)
      simpa [Nat.add_assoc, Nat.add_comm 1 i] using this
    rw [← Nat.add_assoc, hstep, ih left _ hrest]
    simp [Nat.add_assoc, Nat.add_comm 1 k]

/-- On a silent channel `recvfrom_reliable` gives up after five receives. -/
theorem recvfrom_reliable_all_timeouts (env : Env) (hrecv : ∀ i, env.recvRes i = RecvResult.timeout)
    (message : List Byte) (message_size : Nat) (s : St) :
    recvfrom_reliable env message message_size s
      = (-1, message, { s with nrecv := s.nrecv + SERVER_MAX_PACKET_RETRY }) := by
  have := recvfrom_reliable_loop_timeouts env message message_size SERVER_MAX_PACKET_RETRY 0 s
    (fun i _ => hrecv _)
  rw [Nat.zero_add] at this
  rw [recvfrom_reliable, this]
  rfl

/-- The loop of `recvfrom_reliable` leaves the call record and the file store alone. -/
theorem recvfrom_reliable_loop_frame (env : Env) (message : List Byte) (message_size : Nat) :
    ∀ (left : Nat) (s : St),
      (recvfrom_reliable_loop env message message_size left s).2.2.rsends = s.rsends ∧
      (recvfrom_reliable_loop env message message_size left s).2.2.fs = s.fs ∧
      (recvfrom_reliable_loop env message message_size left s).2.2.nwrite = s.nwrite := by
  intro left
  induction left with
  | zero => intro s; exact ⟨rfl, rfl, rfl⟩
  | succ left ih =>
    intro s
    unfold recvfrom_reliable_loop
    cases hr : env.recvRes s.nrecv with
    | timeout =>
      simp only [recvfrom, hr]
      exact ih _
    | error => simp [recvfrom, hr]
    | data a d =>
      cases hs : env.sendOk (s.nsend) <;> simp [recvfrom, sendto, hr, hs]

/-- A `recvfrom_reliable` whose first receive delivers a datagram that fits the buffer,
and whose acknowledgment goes out, returns the length received. -/
theorem recvfrom_reliable_delivered (env : Env) (message : List Byte) (message_size : Nat) (s : St)
    (a : Addr) (d : List Byte) (hr : env.recvRes s.nrecv = RecvResult.data a d)
    (hs : env.sendOk s.nsend = true) (hlen : d.length ≤ message_size) :
    recvfrom_reliable env message message_size s
      = ((d.length : Int), store message d,
          { s with nsend := s.nsend + 1, nrecv := s.nrecv + 1, peer := a,
                   sent := s.sent ++ [(a, ACK)] }) := by
  have h1 : List.take 3 ACK = ACK := by decide
  have h2 : d.take message_size = d := List.take_of_length_le hlen
  simp [recvfrom_reliable, recvfrom_reliable_loop, recvfrom, sendto, hs, hr, h1, h2,
    SERVER_MAX_PACKET_RETRY]

/-- What `send_success_state` does: one call of `sendto_reliable`, with `SUCCESS` when
`err` is zero and `FAIL` otherwise; the file store is left alone. -/
theorem send_success_state_frame (env : Env) (err : Int) (s : St) :
    (∃ res, (Server.send_success_state env err s).rsends
        = s.rsends ++ [(if err = 0 then SUCCESS else FAIL, res)]) ∧
    (Server.send_success_state env err s).fs = s.fs ∧
    ∃ n, n ≤ SERVER_MAX_PACKET_RETRY ∧ payloads (Server.send_success_state env err s)
      = payloads s ++ List.replicate n (if err = 0 then SUCCESS else FAIL) := by
  unfold Server.send_success_state
  by_cases h : err = 0
  · obtain ⟨_, h2, h3, _, h5⟩ := sendto_reliable_frame env SUCCESS 7 s
    simp only [h, if_true]
    exact ⟨⟨_, h2⟩, h3, h5⟩
  · obtain ⟨_, h2, h3, _, h5⟩ := sendto_reliable_frame env FAIL 4 s
    simp only [h, if_false]
    exact ⟨⟨_, h2⟩, h3, h5⟩

/-- The calls made on the way are what was appended to the record. -/
theorem rcalls_append (s t : St) (new : List (List Byte × Int)) (h : t.rsends = s.rsends ++ new) :
    rcalls s t = new := by
  simp [rcalls, h]

/-! ## Lemmas on chunks and on the loops of the commands -/

/-- The chunks of `rest` put end to end are `rest`; none is empty or longer than
`BUFSIZE`; there are `ceil(S / BUFSIZE)` of them. -/
theorem chunksFuel_spec : ∀ (fuel : Nat) (rest : List Byte), rest.length < fuel →
    (chunksFuel fuel rest).flatten = rest ∧
    (∀ c ∈ chunksFuel fuel rest, 0 < c.length ∧ c.length ≤ BUFSIZE) ∧
    (chunksFuel fuel rest).length = (rest.length + BUFSIZE - 1) / BUFSIZE := by
  intro fuel
  induction fuel with
  | zero => intro rest h; omega
  | succ fuel ih =>
    intro rest h
    by_cases he : rest = []
    · subst he
      simp [chunksFuel, BUFSIZE]
    · have hpos : 0 < rest.length := List.length_pos.mpr he
      have htake : 0 < (rest.take BUFSIZE).length := by
        simp [List.length_take, BUFSIZE]; omega
      have hdrop : (rest.drop BUFSIZE).length < fuel := by
        simp [List.length_drop, BUFSIZE]; omega
      obtain ⟨h1, h2, h3⟩ := ih (rest.drop BUFSIZE) hdrop
      simp only [chunksFuel, htake, if_true]
      refine ⟨?_, ?_, ?_⟩
      · simp [h1]
      · intro c hc
        rcases List.mem_cons.mp hc with rfl | hc
        · exact ⟨htake, by simp [List.length_take]⟩
        · exact h2 c hc
      · rw [List.length_drop] at h3
        simp only [BUFSIZE] at h3 ⊢
        rw [List.length_cons, h3]
        omega

/-- The chunks of `F` put end to end are `F`; none is empty or longer than `BUFSIZE`;
there are `ceil(S / BUFSIZE)` of them. -/
theorem chunks_spec (F : List Byte) :
    (chunks F).flatten = F ∧ (∀ c ∈ chunks F, 0 < c.length ∧ c.length ≤ BUFSIZE) ∧
    (chunks F).length = (F.length + BUFSIZE - 1) / BUFSIZE :=
  chunksFuel_spec (F.length + 1) F (by omega)

/-- One pass of the sending loop, spelled out. -/
theorem send_file_loop_succ (env : Env) (fuel : Nat) (rest : List Byte) (s : St) :
    send_file_loop env (fuel + 1) rest s
      = if 0 < (rest.take BUFSIZE).length then
          if (sendto_reliable env (rest.take BUFSIZE) (rest.take BUFSIZE).length s).1 < 0 then
            (Flow.returned, (sendto_reliable env (rest.take BUFSIZE) (rest.take BUFSIZE).length s).2)
          else send_file_loop env fuel (rest.drop BUFSIZE)
            (sendto_reliable env (rest.take BUFSIZE) (rest.take BUFSIZE).length s).2
        else (Flow.returned, s) := rfl

/-- The sending loop always leaves the file store alone and ends; when all its calls
of `sendto_reliable` succeed they carry the chunks of the file, in order. -/
theorem send_file_loop_calls (env : Env) :
    ∀ (fuel : Nat) (rest : List Byte) (s : St), rest.length < fuel →
      (send_file_loop env fuel rest s).1 = Flow.returned ∧
      (send_file_loop env fuel rest s).2.fs = s.fs ∧
      ∃ new, (send_file_loop env fuel rest s).2.rsends = s.rsends ++ new ∧
        ((∀ e ∈ new, e.2 = 0) → new.map Prod.fst = chunksFuel fuel rest) := by
  intro fuel
  induction fuel with
  | zero => intro rest s h; omega
  | succ fuel ih =>
    intro rest s h
    rw [send_file_loop_succ]
    by_cases hpos : 0 < (rest.take BUFSIZE).length
    · obtain ⟨_, hrs, hfs, _⟩ :=
        sendto_reliable_frame env (rest.take BUFSIZE) (rest.take BUFSIZE).length s
      rw [List.take_length] at hrs
      rw [if_pos hpos]
      by_cases hr : (sendto_reliable env (rest.take BUFSIZE) (rest.take BUFSIZE).length s).1 < 0
      · rw [if_pos hr]
        refine ⟨rfl, hfs, _, hrs, ?_⟩
        intro hall
        have := hall _ (List.mem_singleton.mpr rfl)
        simp only at this
        omega
      · rw [if_neg hr]
        have hdrop : (rest.drop BUFSIZE).length < fuel := by
          have : 0 < rest.length := by
            rcases rest with _ | ⟨a, t⟩
            · simp at hpos
            · simp
          simp [List.length_drop, BUFSIZE]; omega
        obtain ⟨h1, h2, new, h3, h4⟩ := ih (rest.drop BUFSIZE)
          (sendto_reliable env (rest.take BUFSIZE) (rest.take BUFSIZE).length s).2 hdrop
        refine ⟨h1, h2.trans hfs,
          (rest.take BUFSIZE, (sendto_reliable env (rest.take BUFSIZE)
            (rest.take BUFSIZE).length s).1) :: new, ?_, ?_⟩
        · rw [h3, hrs]; simp
        · intro hall
          have hnew : ∀ e ∈ new, e.2 = 0 := fun e he => hall e (List.mem_cons_of_mem _ he)
          have hhead := hall _ (List.mem_cons_self _ _)
          rw [chunksFuel, if_pos hpos, List.map_cons, h4 hnew]
    · rw [if_neg hpos]
      refine ⟨rfl, rfl, [], by simp, ?_⟩
      intro _
      rw [chunksFuel, if_neg hpos]; rfl

/-- From the record of a run that sent the chunks and then `FIN` to the statement of
chunking. -/
theorem chunked_of_calls (content : List Byte) (s t : St) (new : List (List Byte × Int)) (r : Int)
    (ht : t.rsends = s.rsends ++ (new ++ [(FIN, r)]))
    (hnew : (∀ e ∈ new, e.2 = 0) → new.map Prod.fst = chunks content)
    (hok : ∀ e ∈ rcalls s t, e.2 = 0) :
    ChunkedTransfer content ((rcalls s t).map Prod.fst) := by
  rw [rcalls_append s t _ ht] at hok ⊢
  have h := hnew (fun e he => hok e (List.mem_append_left _ he))
  obtain ⟨h1, h2, h3⟩ := chunksFuel_spec (content.length + 1) content (by omega)
  exact ⟨chunks content, by simp [h], h3, h2, h1⟩

/-- The sending loop on a link that acknowledges every chunk: one datagram per chunk,
in order, and nothing else. -/
theorem send_file_loop_lossless (env : Env) (a : Addr) (hsend : ∀ i, env.sendOk i = true) :
    ∀ (fuel : Nat) (rest : List Byte) (s : St), rest.length < fuel → s.peer = a →
      (∀ i, i < (chunksFuel fuel rest).length → env.recvRes (s.nrecv + i) = RecvResult.data a ACK) →
      (send_file_loop env fuel rest s).1 = Flow.returned ∧
      (send_file_loop env fuel rest s).2.peer = a ∧
      (send_file_loop env fuel rest s).2.nsend = s.nsend + (chunksFuel fuel rest).length ∧
      (send_file_loop env fuel rest s).2.nrecv = s.nrecv + (chunksFuel fuel rest).length ∧
      (send_file_loop env fuel rest s).2.sent
        = s.sent ++ (chunksFuel fuel rest).map (fun c => (a, c)) ∧
      (send_file_loop env fuel rest s).2.fs = s.fs := by
  intro fuel
  induction fuel with
  | zero => intro rest s h; omega
  | succ fuel ih =>
    intro rest s h hp hrecv
    rw [send_file_loop_succ]
    by_cases hpos : 0 < (rest.take BUFSIZE).length
    · rw [chunksFuel, if_pos hpos] at hrecv ⊢
      have h0 : env.recvRes s.nrecv = RecvResult.data a ACK := by
        simpa using hrecv 0 (by simp)
      have hstep := sendto_reliable_acked env (rest.take BUFSIZE) (rest.take BUFSIZE).length s a
        (hsend _) h0
      rw [List.take_length] at hstep
      rw [if_pos hpos, hstep]
      have hdrop : (rest.drop BUFSIZE).length < fuel := by
        have : 0 < rest.length := by
          rcases rest with _ | ⟨b, t⟩
          · simp at hpos
          · simp
        simp [List.length_drop, BUFSIZE]; omega
      simp only [show ¬ ((0 : Int) < 0) by decide, if_false]
      obtain ⟨h1, h2, h3, h4, h5, h6⟩ := ih (rest.drop BUFSIZE)
        { s with nsend := s.nsend + 1, nrecv := s.nrecv + 1, peer := a,
                 sent := s.sent ++ [(s.peer, rest.take BUFSIZE)],
                 rsends := s.rsends ++ [(rest.take BUFSIZE, 0)] } hdrop rfl (by
        intro i hi
        have := hrecv (i + 1) (by simpa using hi)
        simpa [Nat.add_assoc, Nat.add_comm 1 i] using this)
      refine ⟨h1, h2, ?_, ?_, ?_, h6⟩
      · rw [h3]; simp only [List.length_cons]; omega
      · rw [h4]; simp only [List.length_cons]; omega
      · rw [h5]; simp [hp]
    · rw [if_neg hpos, chunksFuel, if_neg hpos]
      exact ⟨rfl, hp, rfl, rfl, by simp, rfl⟩

/-- The server's `get_file` once the file is open. -/
theorem server_get_file_open (env : Env) (filename : List Byte) (s : St) (content : List Byte)
    (hopen : fopen_rb env filename s = some content) :
    Server.get_file env filename s
      = (Flow.returned,
          (sendto_reliable env FIN 3 (send_file_loop env (content.length + 1) content s).2).2) := by
  have h1 := (send_file_loop_calls env (content.length + 1) content s (by omega)).1
  simp only [Server.get_file, hopen]
  cases hf : send_file_loop env (content.length + 1) content s with
  | mk fl st =>
    rw [hf] at h1
    simp only at h1
    subst h1
    rfl

/-- The client's `put_file` once the file is open. -/
theorem client_put_file_open (env : Env) (filename : List Byte) (s : St) (content : List Byte)
    (hopen : fopen_rb env filename s = some content) :
    Client.put_file env filename s
      = (Flow.returned,
          (recvfrom_reliable env memset0 BUFSIZE
            (sendto_reliable env FIN 3
              (send_file_loop env (content.length + 1) content s).2).2).2.2) := by
  have h1 := (send_file_loop_calls env (content.length + 1) content s (by omega)).1
  simp only [Client.put_file, hopen]
  cases hf : send_file_loop env (content.length + 1) content s with
  | mk fl st =>
    rw [hf] at h1
    simp only at h1
    subst h1
    rfl

/-- The server's `put_file` once the file is open and the receive loop has ended. -/
theorem server_put_file_open (env : Env) (fuel : Nat) (filename : List Byte) (s s0 : St)
    (hopen : fopen_wb env filename s = some s0)
    (hloop : (Server.put_file_loop env filename fuel 0 s0).1 = Flow.returned) :
    Server.put_file env fuel filename s
      = (Flow.returned,
          Server.send_success_state env (Server.put_file_loop env filename fuel 0 s0).2.1
            (Server.put_file_loop env filename fuel 0 s0).2.2) := by
  simp only [Server.put_file, hopen]
  rcases hf : Server.put_file_loop env filename fuel 0 s0 with ⟨fl, err, st⟩
  rw [hf] at hloop
  simp only at hloop
  subst hloop
  rfl

/-- One pass of the receive loop of the server's `put_file`, spelled out. -/
theorem server_put_file_loop_succ (env : Env) (filename : List Byte) (fuel : Nat) (err : Int)
    (s : St) :
    Server.put_file_loop env filename (fuel + 1) err s
      = if (recvfrom_reliable env memset0 BUFSIZE s).1 < 0 then
          (Flow.returned, 1, (recvfrom_reliable env memset0 BUFSIZE s).2.2)
        else if strcmp (recvfrom_reliable env memset0 BUFSIZE s).2.1 FIN = 0 then
          (Flow.returned, err, (recvfrom_reliable env memset0 BUFSIZE s).2.2)
        else if ((fwrite env filename (recvfrom_reliable env memset0 BUFSIZE s).2.1
            (recvfrom_reliable env memset0 BUFSIZE s).1.toNat
            (recvfrom_reliable env memset0 BUFSIZE s).2.2).1 : Int) < 0 then
          (Flow.returned, err, (fwrite env filename (recvfrom_reliable env memset0 BUFSIZE s).2.1
            (recvfrom_reliable env memset0 BUFSIZE s).1.toNat
            (recvfrom_reliable env memset0 BUFSIZE s).2.2).2)
        else Server.put_file_loop env filename fuel err
          (fwrite env filename (recvfrom_reliable env memset0 BUFSIZE s).2.1
            (recvfrom_reliable env memset0 BUFSIZE s).1.toNat
            (recvfrom_reliable env memset0 BUFSIZE s).2.2).2 := rfl

/-- One pass of the receive loop of the client's `get_file`, spelled out. -/
theorem client_get_file_loop_succ (env : Env) (filename : List Byte) (fuel : Nat) (s : St) :
    Client.get_file_loop env filename (fuel + 1) s
      = if (recvfrom_reliable env memset0 BUFSIZE s).1 < 0 then
          (Flow.returned, (recvfrom_reliable env memset0 BUFSIZE s).2.2)
        else if strcmp (recvfrom_reliable env memset0 BUFSIZE s).2.1 FIN = 0 then
          (Flow.returned, (recvfrom_reliable env memset0 BUFSIZE s).2.2)
        else if ((fwrite env filename (recvfrom_reliable env memset0 BUFSIZE s).2.1
            (recvfrom_reliable env memset0 BUFSIZE s).1.toNat
            (recvfrom_reliable env memset0 BUFSIZE s).2.2).1 : Int) < 0 then
          (Flow.returned, (fwrite env filename (recvfrom_reliable env memset0 BUFSIZE s).2.1
            (recvfrom_reliable env memset0 BUFSIZE s).1.toNat
            (recvfrom_reliable env memset0 BUFSIZE s).2.2).2)
        else Client.get_file_loop env filename fuel
          (fwrite env filename (recvfrom_reliable env memset0 BUFSIZE s).2.1
            (recvfrom_reliable env memset0 BUFSIZE s).1.toNat
            (recvfrom_reliable env memset0 BUFSIZE s).2.2).2 := rfl

/-- With room in the store, `fwrite` of a received chunk appends exactly that chunk. -/
theorem fwrite_received (env : Env) (filename : List Byte) (c w : List Byte) (s : St)
    (hw : BUFSIZE ≤ env.wcap s.nwrite) (hlen : c.length ≤ BUFSIZE) (hfs : s.fs filename = some w) :
    fwrite env filename (store memset0 c) (c.length : Int).toNat s
      = (c.length, { s with nwrite := s.nwrite + 1,
                            fs := fun f => if f = filename then some (w ++ c) else s.fs f }) := by
  have hmin : min c.length (env.wcap s.nwrite) = c.length := by omega
  have htake : List.take c.length (store memset0 c) = c := by simp [store]
  simp [fwrite, hmin, htake, hfs]

/-- The receive loop of the server's `put_file` when the chunks `cs` and then `FIN`
arrive, none of the chunks reading as `FIN`: every datagram is acknowledged and the
chunks are appended to the file in order. -/
theorem server_put_file_loop_lossless (env : Env) (a : Addr) (filename : List Byte)
    (hsend : ∀ i, env.sendOk i = true) (hw : ∀ i, BUFSIZE ≤ env.wcap i) :
    ∀ (cs : List (List Byte)) (fuel : Nat) (err : Int) (s : St) (w : List Byte),
      cs.length < fuel →
      (∀ c ∈ cs, c.length ≤ BUFSIZE ∧ cstr c ≠ FIN) →
      (∀ i, i < cs.length → env.recvRes (s.nrecv + i) = RecvResult.data a (cs.getD i [])) →
      env.recvRes (s.nrecv + cs.length) = RecvResult.data a FIN →
      s.fs filename = some w →
      (Server.put_file_loop env filename fuel err s).1 = Flow.returned ∧
      (Server.put_file_loop env filename fuel err s).2.1 = err ∧
      (Server.put_file_loop env filename fuel err s).2.2.peer = a ∧
      (Server.put_file_loop env filename fuel err s).2.2.nsend = s.nsend + (cs.length + 1) ∧
      (Server.put_file_loop env filename fuel err s).2.2.nrecv = s.nrecv + (cs.length + 1) ∧
      (Server.put_file_loop env filename fuel err s).2.2.sent
        = s.sent ++ List.replicate (cs.length + 1) (a, ACK) ∧
      (Server.put_file_loop env filename fuel err s).2.2.fs filename = some (w ++ cs.flatten) := by
  intro cs
  induction cs with
  | nil =>
    intro fuel err s w hfuel _ _ hfin hfs
    obtain ⟨fuel, rfl⟩ : ∃ f, fuel = f + 1 := ⟨fuel - 1, by simp at hfuel; omega⟩
    have hrecv := recvfrom_reliable_delivered env memset0 BUFSIZE s a FIN (by simpa using hfin)
      (hsend _) (by decide)
    have hcmp : strcmp (store memset0 FIN) FIN = 0 := by decide
    rw [server_put_file_loop_succ, hrecv]
    simp only [hcmp, if_true]
    rw [if_neg (by decide)]
    simp [hfs]
  | cons c cs ih =>
    intro fuel err s w hfuel hcs hrecvs hfin hfs
    obtain ⟨fuel, rfl⟩ : ∃ f, fuel = f + 1 := ⟨fuel - 1, by simp at hfuel; omega⟩
    obtain ⟨hclen, hcfin⟩ := hcs c (List.mem_cons_self _ _)
    have h0 : env.recvRes s.nrecv = RecvResult.data a c := by
      simpa using hrecvs 0 (by simp)
    have hrecv := recvfrom_reliable_delivered env memset0 BUFSIZE s a c h0 (hsend _) hclen
    have hcmp : strcmp (store memset0 c) FIN ≠ 0 :=
      fun h => hcfin ((strcmp_store_eq_zero_iff FIN (by decide) c).mp h)
    rw [server_put_file_loop_succ, hrecv]
    simp only
    rw [if_neg (by omega), if_neg hcmp,
      fwrite_received env filename c w _ (hw _) hclen (by simpa using hfs)]
    simp only
    rw [if_neg (by omega)]
    obtain ⟨h1, h2, h3, h4, h5, h6, h7⟩ := ih fuel err
      { s with nsend := s.nsend + 1, nrecv := s.nrecv + 1, peer := a,
               sent := s.sent ++ [(a, ACK)], nwrite := s.nwrite + 1,
               fs := fun f => if f = filename then some (w ++ c) else s.fs f } (w ++ c)
      (by simp at hfuel; omega)
      (fun x hx => hcs x (List.mem_cons_of_mem _ hx))
      (by
        intro i hi
        have := hrecvs (i + 1) (by simpa using hi)
        simpa [Nat.add_assoc, Nat.add_comm 1 i] using this)
      (by simpa [Nat.add_assoc, Nat.add_comm 1 cs.length] using hfin)
      (by simp)
    refine ⟨h1, h2, h3, ?_, ?_, ?_, ?_⟩
    · rw [h4]; simp only [List.length_cons]; omega
    · rw [h5]; simp only [List.length_cons]; omega
    · rw [h6]; simp [List.replicate_succ]
    · rw [h7]; simp

/-- The receive loop of the client's `get_file` when the chunks `cs` and then `FIN`
arrive, none of the chunks reading as `FIN`: every datagram is acknowledged and the
chunks are appended to the file in order. -/
theorem client_get_file_loop_lossless (env : Env) (a : Addr) (filename : List Byte)
    (hsend : ∀ i, env.sendOk i = true) (hw : ∀ i, BUFSIZE ≤ env.wcap i) :
    ∀ (cs : List (List Byte)) (fuel : Nat) (s : St) (w : List Byte),
      cs.length < fuel →
      (∀ c ∈ cs, c.length ≤ BUFSIZE ∧ cstr c ≠ FIN) →
      (∀ i, i < cs.length → env.recvRes (s.nrecv + i) = RecvResult.data a (cs.getD i [])) →
      env.recvRes (s.nrecv + cs.length) = RecvResult.data a FIN →
      s.fs filename = some w →
      (Client.get_file_loop env filename fuel s).1 = Flow.returned ∧
      (Client.get_file_loop env filename fuel s).2.sent
        = s.sent ++ List.replicate (cs.length + 1) (a, ACK) ∧
      (Client.get_file_loop env filename fuel s).2.fs filename = some (w ++ cs.flatten) := by
  intro cs
  induction cs with
  | nil =>
    intro fuel s w hfuel _ _ hfin hfs
    obtain ⟨fuel, rfl⟩ : ∃ f, fuel = f + 1 := ⟨fuel - 1, by simp at hfuel; omega⟩
    have hrecv := recvfrom_reliable_delivered env memset0 BUFSIZE s a FIN (by simpa using hfin)
      (hsend _) (by decide)
    have hcmp : strcmp (store memset0 FIN) FIN = 0 := by decide
    rw [client_get_file_loop_succ, hrecv]
    simp only [hcmp, if_true]
    rw [if_neg (by decide)]
    simp [hfs]
  | cons c cs ih =>
    intro fuel s w hfuel hcs hrecvs hfin hfs
    obtain ⟨fuel, rfl⟩ : ∃ f, fuel = f + 1 := ⟨fuel - 1, by simp at hfuel; omega⟩
    obtain ⟨hclen, hcfin⟩ := hcs c (List.mem_cons_self _ _)
    have h0 : env.recvRes s.nrecv = RecvResult.data a c := by
      simpa using hrecvs 0 (by simp)
    have hrecv := recvfrom_reliable_delivered env memset0 BUFSIZE s a c h0 (hsend _) hclen
    have hcmp : strcmp (store memset0 c) FIN ≠ 0 :=
      fun h => hcfin ((strcmp_store_eq_zero_iff FIN (by decide) c).mp h)
    rw [client_get_file_loop_succ, hrecv]
    simp only
    rw [if_neg (by omega), if_neg hcmp,
      fwrite_received env filename c w _ (hw _) hclen (by simpa using hfs)]
    simp only
    rw [if_neg (by omega)]
    obtain ⟨h1, h6, h7⟩ := ih fuel
      { s with nsend := s.nsend + 1, nrecv := s.nrecv + 1, peer := a,
               sent := s.sent ++ [(a, ACK)], nwrite := s.nwrite + 1,
               fs := fun f => if f = filename then some (w ++ c) else s.fs f } (w ++ c)
      (by simp at hfuel; omega)
      (fun x hx => hcs x (List.mem_cons_of_mem _ hx))
      (by
        intro i hi
        have := hrecvs (i + 1) (by simpa using hi)
        simpa [Nat.add_assoc, Nat.add_comm 1 i] using this)
      (by simpa [Nat.add_assoc, Nat.add_comm 1 cs.length] using hfin)
      (by simp)
    refine ⟨h1, ?_, ?_⟩
    · rw [h6]; simp [List.replicate_succ]
    · rw [h7]; simp

/-- The calls of `sendto_reliable` made by the `readdir` loop: when all of them
succeed they carry, in order, the names of the entries whose type is not zero. -/
theorem ls_files_loop_calls (env : Env) :
    ∀ (entries : List Dirent) (s : St),
      ∃ new, (Server.ls_files_loop env entries s).rsends = s.rsends ++ new ∧
        ((∀ e ∈ new, e.2 = 0) →
          new.map Prod.fst
            = (entries.filter (fun e => decide (e.d_type ≠ 0))).map (fun e => cstr e.d_name)) := by
  intro entries
  induction entries with
  | nil => intro s; exact ⟨[], by simp [Server.ls_files_loop], by simp⟩
  | cons dir more ih =>
    intro s
    by_cases ht : dir.d_type = 0
    · obtain ⟨new, h1, h2⟩ := ih s
      refine ⟨new, by simpa [Server.ls_files_loop, ht] using h1, ?_⟩
      intro h
      simpa [ht] using h2 h
    · obtain ⟨hres, hrs, _⟩ := sendto_reliable_frame env dir.d_name (strlen dir.d_name) s
      rw [take_strlen] at hrs
      by_cases hr : (sendto_reliable env dir.d_name (strlen dir.d_name) s).1 < 0
      · refine ⟨[(cstr dir.d_name, (sendto_reliable env dir.d_name (strlen dir.d_name) s).1)],
          by simpa [Server.ls_files_loop, ht, hr] using hrs, ?_⟩
        intro h
        have := h _ (List.mem_singleton.mpr rfl)
        simp only at this
        omega
      · obtain ⟨new, h1, h2⟩ := ih (sendto_reliable env dir.d_name (strlen dir.d_name) s).2
        refine ⟨(cstr dir.d_name, (sendto_reliable env dir.d_name (strlen dir.d_name) s).1) :: new,
          ?_, ?_⟩
        · simp only [Server.ls_files_loop, ht, hr]
          simp [ht, h1, hrs]
        · intro h
          have hnew : ∀ e ∈ new, e.2 = 0 := fun e he => h e (List.mem_cons_of_mem _ he)
          simp [ht, h2 hnew]

/-- With a C library that lets `fclose(NULL)` pass, the server's `get_file` on a file
it cannot open makes one call of `sendto_reliable`, with `FIN`, and returns;
its `put_file` reports `FAIL`. -/
theorem open_failure_with_checked_fclose (env : Env) (fuel : Nat) (filename : List Byte) (s : St)
    (hlib : env.nullCloseFaults = false) :
    (fopen_rb env filename s = none →
      Server.get_file env filename s = (Flow.returned, (sendto_reliable env FIN 3 s).2)) ∧
    (fopen_wb env filename s = none →
      Server.put_file env fuel filename s = (Flow.returned, (sendto_reliable env FAIL 4 s).2)) := by
  constructor
  · intro h
    simp [Server.get_file, h, fclose_null, hlib]
  · intro h
    simp [Server.put_file, h, fclose_null, hlib, Server.send_success_state]

/-! ## Lemmas on the lossless link -/

/-- The `i`-th receive on a lossless link. -/
theorem lossless_recv (src : Addr) (log : List (List Byte)) (i : Nat) :
    (lossless src log).recvRes i
      = (log[i]?.map (RecvResult.data src)).getD RecvResult.timeout := by
  simp [lossless, scripted, List.get?_eq_getElem?, List.getElem?_map]

/-- On a lossless link the first arrivals come first. -/
theorem lossless_recv_left (src : Addr) (xs ys : List (List Byte)) (i : Nat) (h : i < xs.length) :
    (lossless src (xs ++ ys)).recvRes i = RecvResult.data src (xs.getD i []) := by
  rw [lossless_recv, List.getElem?_append_left h, List.getD_eq_getElem?_getD]
  simp [List.getElem?_eq_getElem h]

/-- On a lossless link the arrival after `xs` is the next datagram. -/
theorem lossless_recv_right (src : Addr) (xs ys : List (List Byte)) (y : List Byte) :
    (lossless src (xs ++ y :: ys)).recvRes xs.length = RecvResult.data src y := by
  rw [lossless_recv, List.getElem?_append_right (le_refl _)]
  simp

/-- On a lossless link the second arrival after `xs` is the datagram after the next. -/
theorem lossless_recv_right1 (src : Addr) (xs ys : List (List Byte)) (y z : List Byte) :
    (lossless src (xs ++ y :: z :: ys)).recvRes (xs.length + 1) = RecvResult.data src z := by
  rw [lossless_recv, List.getElem?_append_right (by omega)]
  simp

/-- The first replies to the sender of `F` are acknowledgements. -/
theorem acks_recv (src : Addr) (F : List Byte) (ys : List (List Byte)) (i : Nat)
    (h : i < (chunks F).length + 1) :
    (lossless src (acks F ++ ys)).recvRes i = RecvResult.data src ACK := by
  rw [lossless_recv_left src (acks F) ys i (by simpa [acks] using h)]
  simp [acks, List.getD_eq_getElem?_getD, List.getElem?_replicate, h]

/-- The sending loop followed by the `FIN`, on a link that acknowledges everything: the
datagrams transmitted are the chunks and then `FIN`. -/
theorem sending_side_lossless (env : Env) (a : Addr) (F : List Byte) (s : St)
    (hsend : ∀ i, env.sendOk i = true) (hp : s.peer = a) (hn : s.nrecv = 0) (hs : s.sent = [])
    (hrecv : ∀ i, i < (chunks F).length + 1 → env.recvRes i = RecvResult.data a ACK) :
    (sendto_reliable env FIN 3 (send_file_loop env (F.length + 1) F s).2).2.sent
        = (chunks F ++ [FIN]).map (fun c => (a, c)) ∧
    (sendto_reliable env FIN 3 (send_file_loop env (F.length + 1) F s).2).2.nrecv
        = (chunks F).length + 1 ∧
    (sendto_reliable env FIN 3 (send_file_loop env (F.length + 1) F s).2).2.fs = s.fs := by
  obtain ⟨_, h2, _, h4, h5, h6⟩ := send_file_loop_lossless env a hsend (F.length + 1) F s
    (by omega) hp (by
      intro i hi
      rw [hn, Nat.zero_add]
      exact hrecv i (by change i < (chunks F).length at hi; omega))
  have hfin : List.take 3 FIN = FIN := by decide
  rw [sendto_reliable_acked env FIN 3 _ a (hsend _) (by
    rw [h4, hn, Nat.zero_add]
    exact hrecv _ (by change (chunks F).length < (chunks F).length + 1; omega))]
  refine ⟨?_, ?_, h6⟩
  · simp only [h5, h2, hs, hfin]
    simp [chunks]
  · simp only [h4, hn]
    simp [chunks]

/-- The client's side of a lossless upload: it transmits the chunks, `FIN`, and the
acknowledgment of the status. -/
theorem client_upload_run (filename F : List Byte) :
    (client_upload filename F (acks F ++ [SUCCESS])).1 = Flow.returned ∧
    payloads (client_upload filename F (acks F ++ [SUCCESS])).2 = chunks F ++ [FIN, ACK] := by
  have hopen : fopen_rb (lossless server_addr (acks F ++ [SUCCESS])) filename
      (having server_addr filename F) = some F := by
    simp [fopen_rb, lossless, scripted, quiet, having]
  obtain ⟨h1, h2, _⟩ := sending_side_lossless (lossless server_addr (acks F ++ [SUCCESS]))
    server_addr F (having server_addr filename F) (fun _ => rfl) rfl rfl rfl
    (fun i hi => acks_recv server_addr F [SUCCESS] i hi)
  have hstatus : (lossless server_addr (acks F ++ [SUCCESS])).recvRes ((chunks F).length + 1)
      = RecvResult.data server_addr SUCCESS := by
    have := lossless_recv_right server_addr (acks F) [] SUCCESS
    simpa [acks] using this
  unfold client_upload
  rw [client_put_file_open _ filename _ F hopen,
    recvfrom_reliable_delivered _ memset0 BUFSIZE _ server_addr SUCCESS (by rw [h2]; exact hstatus)
      rfl (by decide)]
  refine ⟨rfl, ?_⟩
  simp only [payloads, h1]
  simp

/-- The server's side of a lossless upload of a file without a chunk that reads as
`FIN`: it transmits what the client was taken to hear and stores the file. -/
theorem server_upload_run (filename F : List Byte) (hfree : ∀ c ∈ chunks F, cstr c ≠ FIN) :
    (server_upload filename F (acks F ++ [SUCCESS])).1 = Flow.returned ∧
    payloads (server_upload filename F (acks F ++ [SUCCESS])).2 = acks F ++ [SUCCESS] ∧
    (server_upload filename F (acks F ++ [SUCCESS])).2.fs filename = some F := by
  obtain ⟨hflat, hsize, _⟩ := chunks_spec F
  have hopen : fopen_wb (lossless client_addr (chunks F ++ [FIN, ACK])) filename (fresh client_addr)
      = some { fresh client_addr with
          fs := fun f => if f = filename then some [] else (fresh client_addr).fs f } := by
    simp [fopen_wb, lossless, scripted, quiet]
  obtain ⟨h1, h2, h3, h4, h5, h6, h7⟩ := server_put_file_loop_lossless
    (lossless client_addr (chunks F ++ [FIN, ACK])) client_addr filename (fun _ => rfl)
    (fun _ => le_refl _) (chunks F) ((chunks F).length + 1) 0
    { fresh client_addr with
        fs := fun f => if f = filename then some [] else (fresh client_addr).fs f } []
    (by omega) (fun c hc => ⟨(hsize c hc).2, hfree c hc⟩)
    (fun i hi => by
      have := lossless_recv_left client_addr (chunks F) [FIN, ACK] i hi
      simpa [fresh] using this)
    (by
      have := lossless_recv_right client_addr (chunks F) [ACK] FIN
      simpa [fresh] using this)
    (by simp)
  have hack : (lossless client_addr (chunks F ++ [FIN, ACK])).recvRes ((chunks F).length + 1)
      = RecvResult.data client_addr ACK := lossless_recv_right1 client_addr (chunks F) [] FIN ACK
  unfold server_upload
  rw [(client_upload_run filename F).2, server_put_file_open _ _ filename _ _ hopen h1, h2]
  have htake : List.take 7 SUCCESS = SUCCESS := by decide
  simp only [Server.send_success_state, if_true]
  rw [sendto_reliable_acked _ SUCCESS 7 _ client_addr rfl (by rw [h5]; simpa [fresh] using hack)]
  refine ⟨trivial, ?_, ?_⟩
  · simp only [payloads, h6, htake]
    simp [fresh, acks]
  · simp only [h7, hflat]
    simp

/-- The server's side of a lossless download: it transmits the chunks and then `FIN`. -/
theorem server_download_run (filename F : List Byte) (stored : List Byte → Option (List Byte))
    (hstored : stored filename = some F) :
    (server_download filename stored (acks F)).1 = Flow.returned ∧
    payloads (server_download filename stored (acks F)).2 = chunks F ++ [FIN] := by
  have hopen : fopen_rb (lossless client_addr (acks F)) filename
      { fresh client_addr with fs := stored } = some F := by
    simp [fopen_rb, lossless, scripted, quiet, hstored]
  obtain ⟨h1, _, _⟩ := sending_side_lossless (lossless client_addr (acks F)) client_addr F
    { fresh client_addr with fs := stored } (fun _ => rfl) rfl rfl rfl
    (fun i hi => by
      have := acks_recv client_addr F [] i hi
      simpa using this)
  unfold server_download
  rw [server_get_file_open _ filename _ F hopen]
  refine ⟨rfl, ?_⟩
  simp only [payloads, h1]
  simp

/-- The client's side of a lossless download of a file without a chunk that reads as
`FIN`: it transmits what the server was taken to hear and writes the file. -/
theorem client_download_run (filename F : List Byte) (stored : List Byte → Option (List Byte))
    (hstored : stored filename = some F) (hfree : ∀ c ∈ chunks F, cstr c ≠ FIN) :
    (client_download filename stored ((chunks F).length + 1) (acks F)).1 = Flow.returned ∧
    payloads (client_download filename stored ((chunks F).length + 1) (acks F)).2 = acks F ∧
    (client_download filename stored ((chunks F).length + 1) (acks F)).2.fs filename = some F := by
  obtain ⟨hflat, hsize, _⟩ := chunks_spec F
  have hopen : fopen_wb (lossless server_addr (chunks F ++ [FIN])) filename (fresh server_addr)
      = some { fresh server_addr with
          fs := fun f => if f = filename then some [] else (fresh server_addr).fs f } := by
    simp [fopen_wb, lossless, scripted, quiet]
  obtain ⟨h1, h6, h7⟩ := client_get_file_loop_lossless
    (lossless server_addr (chunks F ++ [FIN])) server_addr filename (fun _ => rfl)
    (fun _ => le_refl _) (chunks F) ((chunks F).length + 1)
    { fresh server_addr with
        fs := fun f => if f = filename then some [] else (fresh server_addr).fs f } []
    (by omega) (fun c hc => ⟨(hsize c hc).2, hfree c hc⟩)
    (fun i hi => by
      have := lossless_recv_left server_addr (chunks F) [FIN] i hi
      simpa [fresh] using this)
    (by
      have := lossless_recv_right server_addr (chunks F) [] FIN
      simpa [fresh] using this)
    (by simp)
  unfold client_download
  rw [(server_download_run filename F stored hstored).2]
  simp only [Client.get_file, hopen]
  refine ⟨h1, ?_, ?_⟩
  · simp only [payloads, h6]
    simp [fresh, acks]
  · simp only [h7, hflat]
    simp

/-! ## Retry bound of `sendto_reliable` -/

/-- C1. When every `sendto` succeeds and every `recvfrom` times out,
`sendto_reliable` hands the same payload to `sendto` exactly
`SERVER_MAX_PACKET_RETRY = 5` times, never a sixth, and returns `-1`. -/
theorem sendto_reliable_all_timeouts (env : Env) (message : List Byte) (message_size : Nat) (s : St)
    (hsend : ∀ i, env.sendOk i = true) (hrecv : ∀ i, env.recvRes i = RecvResult.timeout) :
    SERVER_MAX_PACKET_RETRY = 5 ∧
    (sendto_reliable env message message_size s).1 = -1 ∧
    (sendto_reliable env message message_size s).2.nsend = s.nsend + 5 ∧
    (sendto_reliable env message message_size s).2.sent
      = s.sent ++ List.replicate 5 (s.peer, message.take message_size) := by
  simp [sendto_reliable, sendto_reliable_loop, sendto_reliable_round, sendto, recvfrom, hsend, hrecv,
    SERVER_MAX_PACKET_RETRY, List.replicate]

/-- C1 at a concrete input: the payload `hi` on a silent channel. -/
theorem sendto_reliable_all_timeouts_witness :
    SERVER_MAX_PACKET_RETRY = 5 ∧
    (sendto_reliable quiet [104, 105] 2 (fresh 7)).1 = -1 ∧
    (sendto_reliable quiet [104, 105] 2 (fresh 7)).2.nsend = (fresh 7).nsend + 5 ∧
    (sendto_reliable quiet [104, 105] 2 (fresh 7)).2.sent
      = (fresh 7).sent ++ List.replicate 5 ((fresh 7).peer, [104, 105].take 2) :=
  sendto_reliable_all_timeouts quiet [104, 105] 2 (fresh 7) (fun _ => rfl) (fun _ => rfl)

/-! ## The acknowledgment gate of `sendto_reliable` -/

/-- C2 as stated fails: the eight-byte reply `ACK`, a zero byte, `junk` is not the
three bytes `ACK`, yet the round returns success and so does `sendto_reliable`. -/
theorem ack_gate_counterexample :
    (scripted [RecvResult.data 9 (ACK ++ [0, 106, 117, 110, 107])]).sendOk (fresh 9).nsend = true ∧
    (scripted [RecvResult.data 9 (ACK ++ [0, 106, 117, 110, 107])]).recvRes (fresh 9).nrecv
      = RecvResult.data 9 (ACK ++ [0, 106, 117, 110, 107]) ∧
    (ACK ++ [0, 106, 117, 110, 107]).length ≤ BUFSIZE ∧
    ACK ++ [0, 106, 117, 110, 107] ≠ ACK ∧
    (sendto_reliable_round (scripted [RecvResult.data 9 (ACK ++ [0, 106, 117, 110, 107])])
      [104, 105] 2 (fresh 9)).1 = Round.success ∧
    (sendto_reliable (scripted [RecvResult.data 9 (ACK ++ [0, 106, 117, 110, 107])])
      [104, 105] 2 (fresh 9)).1 = 0 := by
  decide

/-- C2, amended. A round of `sendto_reliable` that receives the reply `r` (at most
`BUFSIZE` bytes) returns success exactly when the bytes of `r` before its first
zero byte are `ACK`; otherwise it ends in `n++`, so the loop goes on with one
round less. -/
theorem sendto_reliable_round_ack_gate (env : Env) (message : List Byte) (message_size : Nat)
    (s : St) (a : Addr) (r : List Byte)
    (hsend : env.sendOk s.nsend = true) (hrecv : env.recvRes s.nrecv = RecvResult.data a r)
    (hlen : r.length ≤ BUFSIZE) :
    ((sendto_reliable_round env message message_size s).1 = Round.success ↔ cstr r = ACK) ∧
    (cstr r ≠ ACK →
      (sendto_reliable_round env message message_size s).1 = Round.retry ∧
      ∀ left, sendto_reliable_loop env message message_size (left + 1) s
        = sendto_reliable_loop env message message_size left
            (sendto_reliable_round env message message_size s).2) := by
  have htake : r.take BUFSIZE = r := List.take_of_length_le hlen
  have hiff := strcmp_store_eq_zero_iff ACK (by decide) r
  by_cases hc : cstr r = ACK
  · have h0 : strcmp (store memset0 r) ACK = 0 := hiff.mpr hc
    simp [sendto_reliable_round, sendto, recvfrom, hsend, hrecv, htake, h0, hc]
  · have h0 : strcmp (store memset0 r) ACK ≠ 0 := fun h => hc (hiff.mp h)
    simp [sendto_reliable_round, sendto_reliable_loop, sendto, recvfrom, hsend, hrecv, htake, h0, hc]

/-- C2, amended, at a concrete input: the reply `ACKK` is retried. -/
theorem sendto_reliable_round_ack_gate_witness :
    ((sendto_reliable_round (scripted [RecvResult.data 9 [65, 67, 75, 75]]) [104, 105] 2 (fresh 9)).1
        = Round.success ↔ cstr [65, 67, 75, 75] = ACK) ∧
    (cstr [65, 67, 75, 75] ≠ ACK →
      (sendto_reliable_round (scripted [RecvResult.data 9 [65, 67, 75, 75]]) [104, 105] 2 (fresh 9)).1
        = Round.retry ∧
      ∀ left, sendto_reliable_loop (scripted [RecvResult.data 9 [65, 67, 75, 75]]) [104, 105] 2
          (left + 1) (fresh 9)
        = sendto_reliable_loop (scripted [RecvResult.data 9 [65, 67, 75, 75]]) [104, 105] 2 left
            (sendto_reliable_round (scripted [RecvResult.data 9 [65, 67, 75, 75]])
              [104, 105] 2 (fresh 9)).2) :=
  sendto_reliable_round_ack_gate (scripted [RecvResult.data 9 [65, 67, 75, 75]]) [104, 105] 2
    (fresh 9) 9 [65, 67, 75, 75] (by decide) (by decide) (by decide)

/-! ## Round trip of a file -/

/-- C3 as stated fails for the three-byte file `FIN`.  In the lossless run (each peer
hears exactly what the other transmits: the client sends the chunk `FIN` and five
times the token `FIN`, the server answers `ACK` and five times `SUCCESS`) the
server takes the chunk for the end of the stream and stores the empty file. -/
theorem round_trip_counterexample :
    (client_upload a_txt FIN (ACK :: List.replicate 5 SUCCESS)).1 = Flow.returned ∧
    payloads (client_upload a_txt FIN (ACK :: List.replicate 5 SUCCESS)).2
      = List.replicate 6 FIN ∧
    (server_upload a_txt FIN (ACK :: List.replicate 5 SUCCESS)).1 = Flow.returned ∧
    payloads (server_upload a_txt FIN (ACK :: List.replicate 5 SUCCESS)).2
      = ACK :: List.replicate 5 SUCCESS ∧
    (server_upload a_txt FIN (ACK :: List.replicate 5 SUCCESS)).2.fs a_txt = some [] ∧
    (server_upload a_txt FIN (ACK :: List.replicate 5 SUCCESS)).2.fs a_txt ≠ some FIN := by
  decide

/-- C3, amended.  For every file `F` none of whose chunks of `BUFSIZE` bytes reads, up
to its first zero byte, as `FIN`: on a lossless link without storage errors (each
peer hears exactly what the other transmits) the client's `put_file` driving the
server's `put_file` stores exactly `F` on the server, and the server's `get_file`
of the stored file driving the client's `get_file` writes a file identical to `F`;
all four functions return. -/
theorem round_trip_collision_free (filename F : List Byte)
    (hfree : ∀ c ∈ chunks F, cstr c ≠ FIN) :
    ((client_upload filename F (acks F ++ [SUCCESS])).1 = Flow.returned ∧
      (server_upload filename F (acks F ++ [SUCCESS])).1 = Flow.returned ∧
      payloads (server_upload filename F (acks F ++ [SUCCESS])).2 = acks F ++ [SUCCESS] ∧
      (server_upload filename F (acks F ++ [SUCCESS])).2.fs filename = some F) ∧
    ((server_download filename (server_upload filename F (acks F ++ [SUCCESS])).2.fs
        (acks F)).1 = Flow.returned ∧
      (client_download filename (server_upload filename F (acks F ++ [SUCCESS])).2.fs
        ((chunks F).length + 1) (acks F)).1 = Flow.returned ∧
      payloads (client_download filename (server_upload filename F (acks F ++ [SUCCESS])).2.fs
        ((chunks F).length + 1) (acks F)).2 = acks F ∧
      (client_download filename (server_upload filename F (acks F ++ [SUCCESS])).2.fs
        ((chunks F).length + 1) (acks F)).2.fs filename = some F) := by
  obtain ⟨s1, s2, s3⟩ := server_upload_run filename F hfree
  obtain ⟨d1, d2, d3⟩ := client_download_run filename F _ s3 hfree
  exact ⟨⟨(client_upload_run filename F).1, s1, s2, s3⟩,
    (server_download_run filename F _ s3).1, d1, d2, d3⟩

set_option maxRecDepth 100000 in
/-- C3, amended, at a concrete input: a file of 1030 bytes. -/
theorem round_trip_collision_free_witness :
    (server_upload a_txt long_file (acks long_file ++ [SUCCESS])).2.fs a_txt = some long_file ∧
    (client_download a_txt (server_upload a_txt long_file (acks long_file ++ [SUCCESS])).2.fs
      ((chunks long_file).length + 1) (acks long_file)).2.fs a_txt = some long_file :=
  ⟨(round_trip_collision_free a_txt long_file (by decide)).1.2.2.2,
   (round_trip_collision_free a_txt long_file (by decide)).2.2.2.2⟩

/-! ## Chunking -/

/-- C4.  For a file of `S` bytes that could be opened, with `fread` returning
`min(BUFSIZE, bytes left)`: if every `sendto_reliable` call made by the server's
`get_file`, respectively the client's `put_file`, succeeds, then the payloads of
those calls are `ceil(S / BUFSIZE)` chunks (none for an empty file), each with at
least one and at most `BUFSIZE = 1024` bytes, which put end to end in the order
sent are the content of the file, followed by exactly one three-byte `FIN`. -/
theorem chunking_correct (env : Env) (filename : List Byte) (s : St) (content : List Byte)
    (hopen : fopen_rb env filename s = some content) :
    ((∀ e ∈ rcalls s (Server.get_file env filename s).2, e.2 = 0) →
      ChunkedTransfer content ((rcalls s (Server.get_file env filename s).2).map Prod.fst)) ∧
    ((∀ e ∈ rcalls s (Client.put_file env filename s).2, e.2 = 0) →
      ChunkedTransfer content ((rcalls s (Client.put_file env filename s).2).map Prod.fst)) := by
  obtain ⟨_, _, new, h3, h4⟩ := send_file_loop_calls env (content.length + 1) content s (by omega)
  have hfin : List.take 3 FIN = FIN := by decide
  obtain ⟨_, hrs, _⟩ :=
    sendto_reliable_frame env FIN 3 (send_file_loop env (content.length + 1) content s).2
  rw [hfin, h3, List.append_assoc] at hrs
  constructor
  · intro hok
    rw [server_get_file_open env filename s content hopen] at hok ⊢
    exact chunked_of_calls content s _ new _ hrs h4 hok
  · intro hok
    rw [client_put_file_open env filename s content hopen] at hok ⊢
    refine chunked_of_calls content s _ new
      (sendto_reliable env FIN 3 (send_file_loop env (content.length + 1) content s).2).1 ?_ h4 hok
    rw [← hrs]
    exact (recvfrom_reliable_loop_frame env memset0 BUFSIZE SERVER_MAX_PACKET_RETRY _).1

set_option maxRecDepth 100000 in
/-- C4 at a concrete input: a file of 1030 bytes on an acknowledging channel, sent as
a chunk of 1024 bytes, a chunk of 6 bytes, and `FIN`. -/
theorem chunking_correct_witness :
    ChunkedTransfer long_file
      ((rcalls (having 1 a_txt long_file) (Server.get_file (acking 1) a_txt (having 1 a_txt long_file)).2).map
        Prod.fst) ∧
    ChunkedTransfer long_file
      ((rcalls (having 1 a_txt long_file) (Client.put_file (acking 1) a_txt (having 1 a_txt long_file)).2).map
        Prod.fst) :=
  ⟨(chunking_correct (acking 1) a_txt (having 1 a_txt long_file) long_file (by decide)).1 (by decide),
   (chunking_correct (acking 1) a_txt (having 1 a_txt long_file) long_file (by decide)).2 (by decide)⟩

/-! ## Contract of `recvfrom_reliable` -/

/-- C5. In `recvfrom_reliable`: if the first `k < 5` receives time out, the next
finds a datagram `d`, and the `sendto` of the acknowledgment succeeds, then
exactly one datagram is sent, the three bytes `ACK`, to the sender recorded by
`recvfrom`, and the value returned is the number of bytes that `recvfrom`
delivered into the buffer, that is the length of `d` cut to the size of the
buffer (the length of `d` itself whenever `d` fits), whatever the capacity; if
five receives in a row time out the function returns `-1` after exactly five
receives and sends nothing. -/
theorem recvfrom_reliable_contract (env : Env) (message : List Byte) (message_size : Nat) (s : St) :
    (∀ (k : Nat) (a : Addr) (d : List Byte),
      k < SERVER_MAX_PACKET_RETRY →
      (∀ i, i < k → env.recvRes (s.nrecv + i) = RecvResult.timeout) →
      env.recvRes (s.nrecv + k) = RecvResult.data a d →
      env.sendOk s.nsend = true →
      (recvfrom_reliable env message message_size s).1 = ((d.take message_size).length : Int) ∧
      (recvfrom_reliable env message message_size s).2.1 = store message (d.take message_size) ∧
      (recvfrom_reliable env message message_size s).2.2.peer = a ∧
      (recvfrom_reliable env message message_size s).2.2.sent = s.sent ++ [(a, ACK)] ∧
      (recvfrom_reliable env message message_size s).2.2.nsend = s.nsend + 1 ∧
      (recvfrom_reliable env message message_size s).2.2.nrecv = s.nrecv + k + 1) ∧
    ((∀ i, i < SERVER_MAX_PACKET_RETRY → env.recvRes (s.nrecv + i) = RecvResult.timeout) →
      (recvfrom_reliable env message message_size s).1 = -1 ∧
      (recvfrom_reliable env message message_size s).2.2.nrecv = s.nrecv + 5 ∧
      (recvfrom_reliable env message message_size s).2.2.nsend = s.nsend ∧
      (recvfrom_reliable env message message_size s).2.2.sent = s.sent) := by
  constructor
  · intro k a d hk hto hd hsend
    obtain ⟨left, hleft⟩ : ∃ left, SERVER_MAX_PACKET_RETRY = left + 1 + k :=
      ⟨SERVER_MAX_PACKET_RETRY - 1 - k, by omega⟩
    unfold recvfrom_reliable
    rw [hleft, recvfrom_reliable_loop_timeouts env message message_size k (left + 1) s hto]
    simp only [recvfrom_reliable_loop, recvfrom, sendto, hd, hsend]
    simp [ACK]
  · intro hto
    unfold recvfrom_reliable
    have := recvfrom_reliable_loop_timeouts env message message_size SERVER_MAX_PACKET_RETRY 0 s hto
    rw [Nat.zero_add] at this
    rw [this]
    simp [recvfrom_reliable_loop, SERVER_MAX_PACKET_RETRY]

/-- C5 at concrete inputs: two timeouts and then the five bytes `hello` from
address 9, which fit the buffer and come back as 5; the same five bytes into a
buffer of two bytes, which come back as 2; and a silent channel. -/
theorem recvfrom_reliable_contract_witness :
    ((recvfrom_reliable (scripted [RecvResult.timeout, RecvResult.timeout,
        RecvResult.data 9 [104, 101, 108, 108, 111]]) memset0 BUFSIZE (fresh 4)).1 = 5 ∧
      (recvfrom_reliable (scripted [RecvResult.timeout, RecvResult.timeout,
        RecvResult.data 9 [104, 101, 108, 108, 111]]) memset0 BUFSIZE (fresh 4)).2.2.sent
        = [(9, ACK)]) ∧
    ((recvfrom_reliable (scripted [RecvResult.data 9 [104, 101, 108, 108, 111]])
        [0, 0] 2 (fresh 4)).1 = 2 ∧
      (recvfrom_reliable (scripted [RecvResult.data 9 [104, 101, 108, 108, 111]])
        [0, 0] 2 (fresh 4)).2.1 = [104, 101]) ∧
    ((recvfrom_reliable quiet memset0 BUFSIZE (fresh 4)).1 = -1 ∧
      (recvfrom_reliable quiet memset0 BUFSIZE (fresh 4)).2.2.nrecv = 5 ∧
      (recvfrom_reliable quiet memset0 BUFSIZE (fresh 4)).2.2.sent = []) := by
  have h1 := (recvfrom_reliable_contract (scripted [RecvResult.timeout, RecvResult.timeout,
      RecvResult.data 9 [104, 101, 108, 108, 111]]) memset0 BUFSIZE (fresh 4)).1
    2 9 [104, 101, 108, 108, 111] (by decide) (by decide) (by decide) (by decide)
  have h3 := (recvfrom_reliable_contract (scripted [RecvResult.data 9 [104, 101, 108, 108, 111]])
      [0, 0] 2 (fresh 4)).1
    0 9 [104, 101, 108, 108, 111] (by decide) (by decide) (by decide) (by decide)
  have h2 := (recvfrom_reliable_contract quiet memset0 BUFSIZE (fresh 4)).2 (by decide)
  exact ⟨⟨h1.1, h1.2.2.2.1⟩, ⟨h3.1, h3.2.1⟩, h2.1, h2.2.1, h2.2.2.2⟩

/-! ## Storage errors in the server's `put_file` -/

/-- C6 fails on the code. On a full disk the server's `put_file` receives `hello`,
stores none of its five bytes, and still reports `SUCCESS`; when the file cannot
be opened it calls `fclose` on the null stream, which with the GNU C library ends
the process, and reports nothing at all. -/
theorem put_file_storage_error_not_reported :
    (fwrite disk_full a_txt (store memset0 hello) 5
      ((fopen_wb disk_full a_txt (fresh 1)).getD (fresh 1))).1 = 0 ∧
    (Server.put_file disk_full 3 a_txt (fresh 1)).1 = Flow.returned ∧
    (Server.put_file disk_full 3 a_txt (fresh 1)).2.rsends = [(SUCCESS, 0)] ∧
    (Server.put_file disk_full 3 a_txt (fresh 1)).2.fs a_txt = some [] ∧
    read_only.nullCloseFaults = true ∧
    (fopen_wb read_only a_txt (fresh 1)).isNone = true ∧
    (Server.put_file read_only 3 a_txt (fresh 1)).1 = Flow.faulted ∧
    (Server.put_file read_only 3 a_txt (fresh 1)).2.rsends = [] ∧
    (Server.put_file read_only 3 a_txt (fresh 1)).2.sent = [] := by
  decide

/-! ## Status of the server's `delete_file` -/

/-- C7. For every filename, environment and state the server's `delete_file` makes
exactly one call of `sendto_reliable`: with the seven bytes `SUCCESS` when
`remove` succeeded (the file existed and could be removed) and with the four bytes
`FAIL` when it failed (for one, when the file does not exist).  Every datagram it
hands to `sendto`, at most five, carries that same token, so it never sends both
and never anything else. -/
theorem delete_file_status (env : Env) (filename : List Byte) (s : St) :
    ((remove env filename s).1 = true ↔ ((s.fs filename).isSome ∧ env.canRemove filename = true)) ∧
    (Server.delete_file env filename s).1 = Flow.returned ∧
    (∃ res, (Server.delete_file env filename s).2.rsends
        = s.rsends ++ [(if (remove env filename s).1 = true then SUCCESS else FAIL, res)]) ∧
    ∃ n, n ≤ SERVER_MAX_PACKET_RETRY ∧ payloads (Server.delete_file env filename s).2
      = payloads s ++ List.replicate n (if (remove env filename s).1 = true then SUCCESS else FAIL) := by
  by_cases h : ((s.fs filename).isSome && env.canRemove filename) = true
  · have hr : remove env filename s
        = (true, { s with fs := fun f => if f = filename then none else s.fs f }) := by
      simp [remove, h]
    obtain ⟨h1, _, h3⟩ := send_success_state_frame env 0
      { s with fs := fun f => if f = filename then none else s.fs f }
    refine ⟨by simpa [hr] using h, by simp [Server.delete_file, hr], ?_, ?_⟩
    · simpa [Server.delete_file, hr] using h1
    · simpa [Server.delete_file, hr, payloads] using h3
  · have hr : remove env filename s = (false, s) := by simp [remove, h]
    obtain ⟨h1, _, h3⟩ := send_success_state_frame env 1 s
    refine ⟨by simpa [hr] using h, by simp [Server.delete_file, hr], ?_, ?_⟩
    · simpa [Server.delete_file, hr] using h1
    · simpa [Server.delete_file, hr, payloads] using h3

/-! ## Listing of the server's `ls_files` -/

/-- C8 as stated fails.  In the directory that holds only `a.txt` and `b.bin`, with
every `sendto_reliable` succeeding, the server's `ls_files` sends `.`, `..`,
`a.txt`, `b.bin` and `FIN`: the two meta-entries are not left out. -/
theorem ls_files_counterexample :
    listing.dir = some two_files ∧
    ((Server.ls_files listing (fresh 1)).2.rsends.map Prod.snd
      = [0, 0, 0, 0, 0]) ∧
    (Server.ls_files listing (fresh 1)).2.rsends.map Prod.fst
      = [[46], [46, 46], a_txt, b_bin, FIN] ∧
    (Server.ls_files listing (fresh 1)).2.rsends.map Prod.fst
      ≠ [a_txt, b_bin, FIN] := by
  decide

/-- C8, amended.  For every enumeration `entries` of the working directory, if every
`sendto_reliable` call of the server's `ls_files` succeeds, the payloads of those
calls are the names of the entries whose `d_type` is not zero, in the order of
the enumeration and each once, whatever the name or the type, and then one `FIN`. -/
theorem ls_files_sends_typed_entries (env : Env) (s : St) (entries : List Dirent)
    (hdir : env.dir = some entries)
    (hok : ∀ e ∈ rcalls s (Server.ls_files env s).2, e.2 = 0) :
    (Server.ls_files env s).1 = Flow.returned ∧
    (rcalls s (Server.ls_files env s).2).map Prod.fst
      = (entries.filter (fun e => decide (e.d_type ≠ 0))).map (fun e => cstr e.d_name) ++ [FIN] := by
  obtain ⟨new, h1, h2⟩ := ls_files_loop_calls env entries s
  obtain ⟨_, hrs, _⟩ := sendto_reliable_frame env FIN 3 (Server.ls_files_loop env entries s)
  have hfin : List.take 3 FIN = FIN := by decide
  have hall : (Server.ls_files env s).2.rsends
      = s.rsends ++ (new ++ [(FIN, (sendto_reliable env FIN 3 (Server.ls_files_loop env entries s)).1)]) := by
    simp [Server.ls_files, hdir, hrs, h1, hfin]
  have hcalls := rcalls_append s _ _ hall
  rw [hcalls] at hok ⊢
  refine ⟨by simp [Server.ls_files, hdir], ?_⟩
  have hnew : ∀ e ∈ new, e.2 = 0 := fun e he => hok e (List.mem_append_left _ he)
  simp [h2 hnew]

/-- C8, amended, at a concrete input: the directory with `a.txt` and `b.bin`. -/
theorem ls_files_sends_typed_entries_witness :
    (Server.ls_files listing (fresh 1)).1 = Flow.returned ∧
    (rcalls (fresh 1) (Server.ls_files listing (fresh 1)).2).map
        Prod.fst
      = (two_files.filter (fun e => decide (e.d_type ≠ 0))).map (fun e => cstr e.d_name) ++ [FIN] :=
  ls_files_sends_typed_entries listing (fresh 1) two_files rfl
    (by decide)

/-! ## The server's `get_file` on a file it cannot open -/

/-- C9 fails on the code. After a successful `delete a.txt` the server's `get_file`
of `a.txt` cannot open the file; it then calls `fclose` on the null stream, which
with the GNU C library ends the process: no `FIN` is passed to `sendto_reliable`,
no datagram is sent, and the function does not return. -/
theorem get_file_after_delete_faults :
    (acking 1).nullCloseFaults = true ∧
    (Server.delete_file (acking 1) a_txt (having 1 a_txt hello)).1 = Flow.returned ∧
    after_delete.rsends = [(SUCCESS, 0)] ∧
    after_delete.fs a_txt = none ∧
    fopen_rb (acking 1) a_txt after_delete = none ∧
    (Server.get_file (acking 1) a_txt after_delete).1 = Flow.faulted ∧
    rcalls after_delete (Server.get_file (acking 1) a_txt after_delete).2 = [] ∧
    (Server.get_file (acking 1) a_txt after_delete).2.sent = after_delete.sent := by
  decide

/-! ## Transport failure in the client's `ls_files` -/

/-- C10 fails on the code. On a channel where every receive times out,
`recvfrom_reliable` returns `-1`, and the client's `ls_files` answers it with
`continue`: after any number `fuel` of passes of its loop it has not returned and
has made `5 * fuel` receives. -/
theorem ls_files_retries_forever (env : Env) (hrecv : ∀ i, env.recvRes i = RecvResult.timeout) :
    ∀ (fuel : Nat) (s : St),
      (recvfrom_reliable env memset0 BUFSIZE s).1 = -1 ∧
      (Client.ls_files env fuel s).1 = Flow.running ∧
      (Client.ls_files env fuel s).2.nrecv = s.nrecv + SERVER_MAX_PACKET_RETRY * fuel := by
  intro fuel
  induction fuel with
  | zero => intro s; exact ⟨by rw [recvfrom_reliable_all_timeouts env hrecv], rfl, rfl⟩
  | succ fuel ih =>
    intro s
    have hstep : Client.ls_files env (fuel + 1) s
        = Client.ls_files env fuel { s with nrecv := s.nrecv + SERVER_MAX_PACKET_RETRY } := by
      simp [Client.ls_files, recvfrom_reliable_all_timeouts env hrecv]
    obtain ⟨_, h2, h3⟩ := ih { s with nrecv := s.nrecv + SERVER_MAX_PACKET_RETRY }
    refine ⟨by rw [recvfrom_reliable_all_timeouts env hrecv], by rw [hstep]; exact h2, ?_⟩
    rw [hstep, h3]
    simp only
    ring

/-- C10 at a concrete input: a hundred passes on a silent channel. -/
theorem ls_files_retries_forever_witness :
    (recvfrom_reliable quiet memset0 BUFSIZE (fresh 1)).1 = -1 ∧
    (Client.ls_files quiet 100 (fresh 1)).1 = Flow.running ∧
    (Client.ls_files quiet 100 (fresh 1)).2.nrecv
      = (fresh 1).nrecv + SERVER_MAX_PACKET_RETRY * 100 :=
  ls_files_retries_forever quiet (fun _ => rfl) 100 (fresh 1)

/-! ## Lemmas on the command loop of the client -/

/-- A byte array without zero bytes, followed by zeros, holds itself as a C string. -/
theorem cstr_append_zeros (l : List Byte) (k : Nat) (h : ∀ b ∈ l, b ≠ 0) :
    cstr (l ++ List.replicate k 0) = l := by
  induction l with
  | nil => cases k <;> simp [cstr, List.replicate]
  | cons a t ih =>
    have ha : a ≠ 0 := h a (by simp)
    have ht : ∀ b ∈ t, b ≠ 0 := fun b hb => h b (by simp [hb])
    have := ih ht
    simp only [cstr] at this ⊢
    rw [List.cons_append, List.takeWhile_cons, this]
    simp [ha]

/-- A zeroed buffer that received a line without zero bytes holds that line. -/
theorem cstr_store (line : List Byte) (h : ∀ b ∈ line, b ≠ 0) :
    cstr (store memset0 line) = line := by
  rw [store_memset0]; exact cstr_append_zeros line _ h

/-- On two byte strings without zero bytes `strcmp` is zero exactly when they are
equal. -/
theorem strcmp_eq_zero_iff (c tok : List Byte) (hc : ∀ b ∈ c, b ≠ 0) (htok : ∀ b ∈ tok, b ≠ 0) :
    strcmp c tok = 0 ↔ c = tok := by
  have h := strcmp_pad_eq_zero_iff tok htok c 0
  have hz := cstr_append_zeros c 0 hc
  simp only [List.replicate, List.append_nil] at h hz
  rw [h, hz]

/-- The bytes of the verb are bytes of the line. -/
theorem verb_subset (line : List Byte) (b : Byte) (hb : b ∈ verb line) : b ∈ line :=
  (List.takeWhile_sublist _).subset ((List.takeWhile_sublist _).subset hb)

/-- For a line without zero bytes whose verb is not empty, the `command` pointer that
the two `strtok` calls of `main` produce points to that verb. -/
theorem parse_command_verb (line : List Byte) (htext : ∀ b ∈ line, b ≠ 0)
    (hverb : verb line ≠ []) :
    (Client.parse_command (store memset0 line)).1 = some (verb line) := by
  rw [Client.parse_command, cstr_store line htext]
  rcases line with _ | ⟨b, rest⟩
  · simp [verb] at hverb
  · have hb10 : b ≠ 10 := by
      intro h
      simp [verb, h] at hverb
    have hb32 : b ≠ 32 := by
      intro h
      simp [verb, h] at hverb
    simp [strtok, verb, hb10, hb32, List.takeWhile_cons, List.dropWhile_cons]

/-- A line that holds only its newline leaves the `command` pointer null: the line
is sent, then `strcmp` reads through the null pointer and nothing is printed. -/
theorem main_pass_blank_line :
    verb [10] = [] ∧
    (Client.parse_command (store memset0 [10])).1 = none ∧
    (Client.main_pass (acking server_addr) 3 [10] (fresh server_addr)).1 = Client.Pass.faulted ∧
    (Client.main_pass (acking server_addr) 3 [10] (fresh server_addr)).2.1
      = [Client.Printed.enter_a_command] ∧
    payloads (Client.main_pass (acking server_addr) 3 [10] (fresh server_addr)).2.2.2 = [[10]] := by
  decide

/-! ## Unrecognised verbs in the command loop of the client -/

/-- C11 as stated fails.  The verb of the line `hello` is none of the five commands,
and the pass does print `INVALID COMMAND`; but before that it has sent the line to
the server (one datagram) and waited for the acknowledgment (one receive). -/
theorem invalid_command_counterexample :
    verb hello_line = hello ∧
    hello ∉ [GET, PUT, DELETE, LS, EXIT] ∧
    (Client.main_pass (acking server_addr) 3 hello_line (fresh server_addr)).1 = Client.Pass.next ∧
    (Client.main_pass (acking server_addr) 3 hello_line (fresh server_addr)).2.1
      = [Client.Printed.enter_a_command, Client.Printed.invalid_command,
         Client.Printed.blank_line] ∧
    (Client.main_pass (acking server_addr) 3 hello_line (fresh server_addr)).2.2.2.sent
      = [(server_addr, hello_line)] ∧
    (Client.main_pass (acking server_addr) 3 hello_line (fresh server_addr)).2.2.2.nsend = 1 ∧
    (Client.main_pass (acking server_addr) 3 hello_line (fresh server_addr)).2.2.2.nrecv = 1 := by
  decide

/-- C11, amended.  For every input line without a zero byte whose verb is not empty
and is none of `get`, `put`, `delete`, `ls`, `exit`: a pass of the client's command
loop first sends the line as read, newline included, to the server with one call
of `sendto_reliable`, made before the line is parsed.  When that call succeeds the
pass prints `INVALID COMMAND` and ends; when it fails the client exits.  Either
way that call is the only transport interaction of the pass: the state at the
end is the state the call left, and the record holds that one call. -/
theorem main_pass_invalid_command (env : Env) (fuel : Nat) (input : List Byte) (s : St)
    (htext : ∀ b ∈ (fgets input).1, b ≠ 0)
    (hverb : verb (fgets input).1 ≠ [])
    (hnot : verb (fgets input).1 ∉ [GET, PUT, DELETE, LS, EXIT]) :
    Client.main_pass env fuel input s
        = (if (send_line env input s).1 < 0 then Client.Pass.exited else Client.Pass.next,
           if (send_line env input s).1 < 0 then [Client.Printed.enter_a_command]
           else [Client.Printed.enter_a_command, Client.Printed.invalid_command,
                 Client.Printed.blank_line],
           (fgets input).2, (send_line env input s).2) ∧
    rcalls s (Client.main_pass env fuel input s).2.2.2
        = [((fgets input).1, (send_line env input s).1)] := by
  have hcmd := parse_command_verb (fgets input).1 htext hverb
  have hv0 : ∀ b ∈ verb (fgets input).1, b ≠ 0 := fun b hb => htext b (verb_subset _ b hb)
  simp only [List.mem_cons, List.mem_singleton, List.not_mem_nil, or_false, not_or] at hnot
  obtain ⟨h1, h2, h3, h4, h5⟩ := hnot
  have c1 : strcmp (verb (fgets input).1) GET ≠ 0 :=
    fun h => h1 ((strcmp_eq_zero_iff _ _ hv0 (by decide)).mp h)
  have c2 : strcmp (verb (fgets input).1) PUT ≠ 0 :=
    fun h => h2 ((strcmp_eq_zero_iff _ _ hv0 (by decide)).mp h)
  have c3 : strcmp (verb (fgets input).1) DELETE ≠ 0 :=
    fun h => h3 ((strcmp_eq_zero_iff _ _ hv0 (by decide)).mp h)
  have c4 : strcmp (verb (fgets input).1) LS ≠ 0 :=
    fun h => h4 ((strcmp_eq_zero_iff _ _ hv0 (by decide)).mp h)
  have c5 : strcmp (verb (fgets input).1) EXIT ≠ 0 :=
    fun h => h5 ((strcmp_eq_zero_iff _ _ hv0 (by decide)).mp h)
  have hmain : Client.main_pass env fuel input s
      = (if (send_line env input s).1 < 0 then Client.Pass.exited else Client.Pass.next,
         if (send_line env input s).1 < 0 then [Client.Printed.enter_a_command]
         else [Client.Printed.enter_a_command, Client.Printed.invalid_command,
               Client.Printed.blank_line],
         (fgets input).2, (send_line env input s).2) := by
    rcases hp : Client.parse_command (store memset0 (fgets input).1) with ⟨command, filename⟩
    rw [hp] at hcmd
    simp only at hcmd
    subst hcmd
    by_cases hn : (send_line env input s).1 < 0
    · have hn' := hn
      unfold send_line at hn'
      simp only [Client.main_pass, hn', if_true, hn]
      rfl
    · have hn' := hn
      unfold send_line at hn'
      simp only [Client.main_pass, hn', if_false, hn, hp, Client.dispatch, c1, c2, c3, c4, c5]
      rfl
  refine ⟨hmain, ?_⟩
  rw [hmain]
  obtain ⟨_, hrs, _⟩ := sendto_reliable_frame env (store memset0 (fgets input).1)
    (strlen (store memset0 (fgets input).1)) s
  rw [take_strlen, cstr_store _ htext] at hrs
  exact rcalls_append s _ _ hrs

/-- C11, amended, at a concrete input: the line `hello` on an acknowledging
channel. -/
theorem main_pass_invalid_command_witness :
    Client.main_pass (acking server_addr) 3 hello_line (fresh server_addr)
        = (if (send_line (acking server_addr) hello_line (fresh server_addr)).1 < 0 then
             Client.Pass.exited else Client.Pass.next,
           if (send_line (acking server_addr) hello_line (fresh server_addr)).1 < 0 then
             [Client.Printed.enter_a_command]
           else [Client.Printed.enter_a_command, Client.Printed.invalid_command,
                 Client.Printed.blank_line],
           (fgets hello_line).2, (send_line (acking server_addr) hello_line (fresh server_addr)).2) ∧
    rcalls (fresh server_addr)
        (Client.main_pass (acking server_addr) 3 hello_line (fresh server_addr)).2.2.2
        = [((fgets hello_line).1,
            (send_line (acking server_addr) hello_line (fresh server_addr)).1)] :=
  main_pass_invalid_command (acking server_addr) 3 hello_line (fresh server_addr)
    (by decide) (by decide) (by decide)

end Uftp
